import Mathlib

/-!
Verification of the line-scanning transformation pipeline of
`fix_markdown_lint.py` (Docker MCP Stack).

The document content is shallowly embedded as `List Char`; a document is a
list of lines (`List Line`), obtained by splitting on the newline character
exactly as Python's `content.split('\n')` does. Every transform of the
source file is translated into a computable Lean function on this
representation:

  * `fix_trailing_whitespace`  -> `fixTrailingWhitespace`
  * `fix_fenced_code_blocks`   -> `fixFencedCodeBlocks`
  * `fix_ordered_list_prefixes` -> `fixOrderedListPrefixes`
  * `fix_list_indent_consistency` -> `fixListIndentConsistency`
  * `fix_heading_style`        -> `fixHeadingStyle`
  * `fix_blank_lines`          -> `fixBlankLines`
  * `fix_line_length`          -> `fixLineLength`
  * composition in `fix_markdown_file` (with the 'all' fix set) -> `fixAll`

Python regular expressions used by the script are translated into
deterministic parsing functions whose behaviour coincides with the regex on
newline-free lines (the only lines the script ever sees, since it splits on
newlines first).  Python's `\s`, `str.strip` and friends are modelled on the
six ASCII whitespace characters (space, tab, newline, carriage return,
vertical tab, form feed); the script is only ever applied to ASCII-relevant
markdown syntax, and none of the claims depend on non-ASCII whitespace.
Python's `\d` is modelled as the ASCII digits.
-/

/-- Lines are lists of characters (a Python `str` holding no newline). -/
abbrev Line := List Char

/-- The characters of a Lean string literal, the representation used for
Python string literals throughout. -/
def str (s : String) : Line := s.toList

/-- Python whitespace for the ASCII range: the characters matched by `\s`
and stripped by `str.strip()`. -/
def isPySpace (c : Char) : Bool :=
  c == ' ' || c == '\t' || c == '\n' || c == '\r' || c == '\x0b' || c == '\x0c'

/-- Python `str.lstrip()`. -/
def lstrip (l : Line) : Line := l.dropWhile isPySpace

/-- Python `str.rstrip()`. -/
def rstrip (l : Line) : Line := (l.reverse.dropWhile isPySpace).reverse

/-- Python `str.strip()`. -/
def strip (l : Line) : Line := lstrip (rstrip l)

/-- `' ' * n`. -/
def spaces (n : Nat) : Line := List.replicate n ' '

/-- Python `content.split('\n')`: always at least one (possibly empty)
line. -/
def splitLines : List Char → List Line
  | [] => [[]]
  | c :: t =>
    match splitLines t with
    | [] => [[c]]
    | h :: r => if c = '\n' then [] :: h :: r else (c :: h) :: r

/-- Python `'\n'.join(lines)`. -/
def joinLines : List Line → List Char
  | [] => []
  | [l] => l
  | l :: ls => l ++ '\n' :: joinLines ls

/-- Python `sub in hay` (substring containment; the empty string is in
everything). -/
def containsSub (hay sub : List Char) : Bool :=
  match hay with
  | [] => sub.isEmpty
  | _ :: t => sub.isPrefixOf hay || containsSub t sub

/-- Python `str.split()` with no argument: words separated by whitespace
runs, with no empty words. -/
def splitWsAux : List Char → Line → List Line
  | [], cur => if cur.isEmpty then [] else [cur.reverse]
  | c :: t, cur =>
    if isPySpace c then
      if cur.isEmpty then splitWsAux t [] else cur.reverse :: splitWsAux t []
    else splitWsAux t (c :: cur)

def splitWs (l : List Char) : List Line := splitWsAux l []

/-- Value of a string of ASCII digits, as Python `int` reads it. -/
def natOfDigits (ds : List Char) : Nat :=
  ds.foldl (fun a c => a * 10 + (c.toNat - 48)) 0

/-- Decimal rendering of a natural number, as a Python f-string writes it. -/
def digitsOf (n : Nat) : Line := Nat.toDigits 10 n

/-! ### Fence recognition (RegionTracker)

`line.strip().startswith('```')` toggles the in-code-block state in every
pass; the pattern `^```\s*$` of `fix_fenced_code_blocks` recognises a bare
fence with no language token. -/

def isFenceLine (l : Line) : Bool := (str "```").isPrefixOf (strip l)

def isBareFence (l : Line) : Bool :=
  (str "```").isPrefixOf l && (l.drop 3).all isPySpace

/-! ### fix_fenced_code_blocks -/

def upperLine (l : Line) : Line := l.map Char.toUpper

/-- The ordered language-classification table of `fix_fenced_code_blocks`,
applied to the already-stripped following line. -/
def inferLangCore (n : Line) : Line :=
  if (str "docker ").isPrefixOf n || (str "docker-compose").isPrefixOf n then str "bash"
  else if (str "npm ").isPrefixOf n || (str "node ").isPrefixOf n then str "bash"
  else if (str "git ").isPrefixOf n || (str "cd ").isPrefixOf n then str "bash"
  else if (str "make ").isPrefixOf n || (str "sudo ").isPrefixOf n then str "bash"
  else if (str "curl ").isPrefixOf n || (str "wget ").isPrefixOf n then str "bash"
  else if containsSub n (str "version:") || containsSub n (str "services:") then str "yaml"
  else if (str "\x7b").isPrefixOf n || (str "[").isPrefixOf n then str "json"
  else if (str "<").isPrefixOf n && containsSub n (str ">") then str "html"
  else if containsSub n (str "def ") || containsSub n (str "import ")
      || (str "class ").isPrefixOf n then str "python"
  else if containsSub n (str "function ") || containsSub n (str "const ")
      || containsSub n (str "var ") || containsSub n (str "let ") then str "javascript"
  else if containsSub (upperLine n) (str "SELECT ")
      || containsSub (upperLine n) (str "CREATE TABLE") then str "sql"
  else if containsSub n (str "#!/bin/bash")
      || containsSub n (str "#!/usr/bin/env bash") then str "bash"
  else if containsSub n (str "#!/usr/bin/env python") then str "python"
  else if containsSub n (str "#include ") || containsSub n (str "int main") then str "c"
  else str "bash"

/-- The classification of the line after a bare fence (the Python code
strips `lines[i + 1]` before consulting the table). -/
def inferLang (nextRaw : Line) : Line := inferLangCore (strip nextRaw)

/-- The line a bare fence is replaced by, given the following line when one
exists ('```bash' when the fence is the last line). -/
def fenceTagLine : Option Line → Line
  | some nl => str "```" ++ inferLang nl
  | none => str "```bash"

def fixFencedLines : List Line → List Line
  | [] => []
  | l :: rest =>
    (if isBareFence l then fenceTagLine rest.head? else l) :: fixFencedLines rest

def fixFencedCodeBlocks (content : List Char) : List Char :=
  joinLines (fixFencedLines (splitLines content))

/-! ### fix_trailing_whitespace -/

def fixTrailingWhitespace (content : List Char) : List Char :=
  joinLines ((splitLines content).map rstrip)

/-! ### fix_ordered_list_prefixes -/

/-- `re.match(r'^(\s*)(\d+)\.\s(.*)$', line)` as (indent, number, text):
on a newline-free line the regex matches exactly a whitespace run, a
non-empty digit run, a dot, one whitespace character and the rest. -/
def olMatch (l : Line) : Option (Line × Nat × Line) :=
  let ind := l.takeWhile isPySpace
  let after := l.dropWhile isPySpace
  let ds := after.takeWhile Char.isDigit
  match ds with
  | [] => none
  | _ =>
    match after.drop ds.length with
    | '.' :: s :: txt => if isPySpace s then some (ind, natOfDigits ds, txt) else none
    | _ => none

/-- `re.match(r'^\s*\d+\.\s', line)` (a prefix of the pattern above). -/
def isOlItem (l : Line) : Bool := (olMatch l).isSome

/-- Counter reset condition for an item at position `i`:
`i == 0 or lines[i-1].strip() == '' or not re.match(r'^\s*\d+\.\s', lines[i-1])`,
where `prev` is `lines[i-1]` when `i > 0`. -/
def olResetCond : Option Line → Bool
  | none => true
  | some p => (strip p).isEmpty || !(isOlItem p)

/-- The blank-line lookahead: the indentation width of the next non-blank
line, `0` when there is none (Python leaves `next_indent = ''`, whose length
comparison behaves exactly like the integer 0). -/
def nextNonBlankIndent : List Line → Nat
  | [] => 0
  | l :: t => if (strip l).isEmpty then nextNonBlankIndent t else (l.takeWhile isPySpace).length

/-- The `list_counters` dict, keyed by the exact indentation string. -/
def getCnt : List (Line × Nat) → Line → Option Nat
  | [], _ => none
  | (k, v) :: t, k' => if k = k' then some v else getCnt t k'

def setCnt : List (Line × Nat) → Line → Nat → List (Line × Nat)
  | [], k, v => [(k, v)]
  | (k', v') :: t, k, v => if k' = k then (k, v) :: t else (k', v') :: setCnt t k v

/-- The scanning loop of `fix_ordered_list_prefixes`; `prev` is the input
line just before the current one (`lines[i-1]`). -/
def olGo (prev : Option Line) (cnt : List (Line × Nat)) (inCode : Bool) :
    List Line → List Line
  | [] => []
  | l :: rest =>
    if isFenceLine l then l :: olGo (some l) cnt (!inCode) rest
    else if inCode then l :: olGo (some l) cnt inCode rest
    else
      match olMatch l with
      | some (ind, num, txt) =>
        let cnt1 := if olResetCond prev then setCnt cnt ind 1 else cnt
        let correct := (getCnt cnt1 ind).getD 1
        let cnt2 := setCnt cnt1 ind (correct + 1)
        (if num ≠ correct then ind ++ digitsOf correct ++ str ". " ++ txt else l) ::
          olGo (some l) cnt2 inCode rest
      | none =>
        if (strip l).isEmpty then
          let ni := nextNonBlankIndent rest
          l :: olGo (some l) (cnt.filter (fun kv => kv.1.length < ni)) inCode rest
        else l :: olGo (some l) cnt inCode rest

def fixOrderedListPrefixes (content : List Char) : List Char :=
  joinLines (olGo none [] false (splitLines content))

/-! ### fix_list_indent_consistency -/

/-- `re.match(r'^(\s*)[-*+]\s', line)` succeeds. -/
def ulMatch (l : Line) : Bool :=
  match l.dropWhile isPySpace with
  | m :: s :: _ => (m == '-' || m == '*' || m == '+') && isPySpace s
  | _ => false

/-- Per-line rewrite of `fix_list_indent_consistency` (Python divides by the
configured width, so a width of zero would raise `ZeroDivisionError` there;
the checked embedding below models that, the pure one is only used with the
positive widths the configuration contract guarantees). -/
def liLine (width : Nat) (l : Line) : Line :=
  if ulMatch l then
    let lvl := (l.takeWhile isPySpace).length / width
    if lvl = 0 then l.dropWhile isPySpace
    else List.replicate (lvl * width) ' ' ++ l.dropWhile isPySpace
  else l

def liGo (width : Nat) (inCode : Bool) : List Line → List Line
  | [] => []
  | l :: rest =>
    if isFenceLine l then l :: liGo width (!inCode) rest
    else if inCode then l :: liGo width inCode rest
    else liLine width l :: liGo width inCode rest

def fixListIndentConsistency (content : List Char) (width : Nat) : List Char :=
  joinLines (liGo width false (splitLines content))

/-! ### fix_heading_style -/

/-- The setext-underline test on the line after the current one:
`next_line.strip()` is non-empty and consists solely of `=` or solely of
`-`. -/
def setextUnder (next : Line) : Bool :=
  !(strip next).isEmpty &&
    ((strip next).all (fun c => c == '=') || (strip next).all (fun c => c == '-'))

/-- Does a suffix have the exact shape `\s+#+` (the optional trailing
decoration of an ATX heading)? -/
def trailHash (s : Line) : Bool :=
  let w := s.takeWhile isPySpace
  !w.isEmpty &&
    (let hs := s.drop w.length
     !hs.isEmpty && hs.all (fun c => c == '#'))

/-- The lazy group `(.+?)` before the optional `(\s+#+)?$`: the shortest
non-empty prefix whose remainder is empty or is a full `\s+#+` suffix. -/
def lazyCut (acc : Line) : Line → Line
  | [] => acc
  | [c] => acc ++ [c]
  | c :: t => if trailHash t then acc ++ [c] else lazyCut (acc ++ [c]) t

/-- `re.match(r'^(#+)\s+(.+?)(\s+#+)?$', line)` as (level, raw group 2).
When everything after `#+\s` is empty the regex backtracks one whitespace
character into the lazy group; group 2 is then that single whitespace
character (stripped to nothing by the caller). -/
def atxMatch (l : Line) : Option (Nat × Line) :=
  let hs := l.takeWhile (fun c => c == '#')
  if hs.isEmpty then none
  else
    let r1 := l.drop hs.length
    let w := r1.takeWhile isPySpace
    if w.isEmpty then none
    else
      let more := r1.drop w.length
      if more.isEmpty then
        if 2 ≤ w.length then some (hs.length, [w.getLastD ' ']) else none
      else some (hs.length, lazyCut [] more)

/-- The ATX-branch output of `fix_heading_style` for one line.  Note the
faithful translation of `'=' if level == 1 else '-' * len(heading_text)`:
Python's conditional binds looser than `*`, so a level-1 heading gets the
one-character underline `=`. -/
def atxHandle (style : Line) (l : Line) : List Line :=
  match atxMatch l with
  | some (lev, g2) =>
    let text := strip g2
    if style = str "atx" then [List.replicate lev '#' ++ ' ' :: text]
    else if lev ≤ 2 then
      [text, if lev = 1 then ['='] else List.replicate text.length '-']
    else [List.replicate lev '#' ++ ' ' :: text]
  | none => [l]

def hsGo (style : Line) (inCode : Bool) : List Line → List Line
  | [] => []
  | [l] =>
    if isFenceLine l then [l]
    else if inCode then [l]
    else atxHandle style l
  | l :: next :: rest2 =>
    if isFenceLine l then l :: hsGo style (!inCode) (next :: rest2)
    else if inCode then l :: hsGo style inCode (next :: rest2)
    else if setextUnder next then
      if style = str "atx" then
        (List.replicate (if next.any (fun c => c == '=') then 1 else 2) '#'
          ++ ' ' :: strip l) :: hsGo style inCode rest2
      else l :: next :: hsGo style inCode rest2
    else atxHandle style l ++ hsGo style inCode (next :: rest2)

def fixHeadingStyle (content : List Char) (style : Line) : List Char :=
  joinLines (hsGo style false (splitLines content))

/-! ### fix_blank_lines -/

/-- A line the blank-line pass treats as a list item:
`re.match(r'^\s*[-*+]\s', line) or re.match(r'^\s*\d+\.\s', line)`. -/
def isListLine (l : Line) : Bool := ulMatch l || isOlItem l

/-- First phase of `fix_blank_lines`.  `first` is `i == 0`; `lastOut` is
`fixed_lines[-1]` (every iteration appends at least one line, so the output
is non-empty exactly when `i > 0`, and the Python guard
`i > 0 and fixed_lines` is `first = false`). -/
def blGo (first : Bool) (lastOut : Option Line) (inCode : Bool) : List Line → List Line
  | [] => []
  | l :: rest =>
    if isFenceLine l then
      if inCode then
        let emitted := l ::
          (match rest with
           | nl :: _ =>
             if !(strip nl).isEmpty && !(str "#").isPrefixOf (strip nl) then [[]] else []
           | [] => [])
        emitted ++ blGo false emitted.getLast? false rest
      else
        let pre : List Line :=
          if first then []
          else
            match lastOut with
            | none => []
            | some lo => if (strip lo).isEmpty then [] else [[]]
        let emitted := pre ++ [l]
        emitted ++ blGo false emitted.getLast? true rest
    else if inCode then l :: blGo false (some l) true rest
    else if (str "#").isPrefixOf (strip l) then
      let pre : List Line :=
        if first then []
        else
          match lastOut with
          | none => []
          | some lo => if (strip lo).isEmpty then [] else [[]]
      let post : List Line :=
        match rest with
        | nl :: _ => if !(strip nl).isEmpty then [[]] else []
        | [] => []
      let emitted := pre ++ [l] ++ post
      emitted ++ blGo false emitted.getLast? false rest
    else if isListLine l then
      let pre : List Line :=
        if first then []
        else
          match lastOut with
          | none => []
          | some lo =>
            let p := strip lo
            if !p.isEmpty && !isListLine p then [[]] else []
      let emitted := pre ++ [l]
      emitted ++ blGo false emitted.getLast? false rest
    else l :: blGo false (some l) false rest

/-- Second phase: collapse runs of two or more consecutive blank lines
(this subpass scans every line, with no code-block tracking). -/
def collapseGo (prevBlank : Bool) : List Line → List Line
  | [] => []
  | l :: t =>
    if (strip l).isEmpty then
      if prevBlank then collapseGo true t else l :: collapseGo true t
    else l :: collapseGo false t

def fixBlankLines (content : List Char) : List Char :=
  joinLines (collapseGo false (blGo true none false (splitLines content)))

/-! ### fix_line_length -/

/-- Python `line.rfind(sub, 0, e)` (with the Python slice semantics for a
negative end bound): the largest start position of an occurrence of `sub`
lying entirely before the effective end, `-1` when there is none. -/
def rfindGo (l sub : Line) (cap : Nat) : Nat → Int
  | 0 => if sub.isPrefixOf l && decide (sub.length ≤ cap) then 0 else -1
  | i + 1 =>
    if sub.isPrefixOf (l.drop (i + 1)) && decide (i + 1 + sub.length ≤ cap) then
      ((i + 1 : Nat) : Int)
    else rfindGo l sub cap i

def pyRfind (l sub : Line) (e : Int) : Int :=
  let cap : Nat := if e < 0 then l.length - (-e).toNat else min e.toNat l.length
  rfindGo l sub cap cap

/-- The ordered break-point table of `fix_line_length`. -/
def breakPoints : List Line :=
  [str ". ", str ", ", str ": ", str "; ", str " - ", str " and ", str " or ", str " but "]

/-- `pos + len(bp) - 1 if bp.endswith(' ') else pos + len(bp)`. -/
def bpAdjust (bp : Line) (pos : Int) : Int :=
  if bp.getLast? = some ' ' then pos + bp.length - 1 else pos + bp.length

/-- The break-point search loop: for each break point in order, find its
rightmost occurrence before the limit and keep the adjusted position when
the raw position beats the current best. -/
def bestBreak (target : Line) (limit : Int) : Int :=
  breakPoints.foldl
    (fun bb bp =>
      let pos := pyRfind target bp limit
      if bb < pos then bpAdjust bp pos else bb)
    (-1)

/-- The word-boundary fallback of the list-item branch: walk the words,
stop at the first word that would overflow, and return the length consumed
so far when at least one word fits (`best_break` is left unchanged
otherwise). -/
def wfGo (limit : Int) (bb0 : Int) : Nat → Nat → List Line → Int
  | _, _, [] => bb0
  | i, cl, w :: t =>
    if (cl : Int) + w.length + 1 > limit then (if 0 < i then (cl : Int) else bb0)
    else wfGo limit bb0 (i + 1) (cl + w.length + 1) t

def wordFallback (limit : Int) (bb0 : Int) (words : List Line) : Int :=
  wfGo limit bb0 0 0 words

/-- First position of a `\[([^\]]+)\]\(http[^)]+\)` match starting at the
head of the line. -/
def linkAt (l : Line) : Bool :=
  match l with
  | '[' :: t =>
    let txt := t.takeWhile (fun c => !(c == ']'))
    match txt with
    | [] => false
    | _ =>
      match t.drop txt.length with
      | ']' :: '(' :: 'h' :: 't' :: 't' :: 'p' :: u =>
        let uu := u.takeWhile (fun c => !(c == ')'))
        !uu.isEmpty && !(u.drop uu.length).isEmpty
      | _ => false
  | _ => false

/-- `re.search(r'\[([^\]]+)\]\(http[^)]+\)', line).start()`: the leftmost
match position. -/
def findLinkFrom : Nat → Line → Option Nat
  | _, [] => none
  | i, c :: t => if linkAt (c :: t) then some i else findLinkFrom (i + 1) t

def findLinkStart (l : Line) : Option Nat := findLinkFrom 0 l

/-- The shared two-line split: `line[:bb].rstrip()` then the rest, lstripped
and re-indented, dropped when empty. -/
def splitAt2 (l : Line) (bb : Int) (ind : Nat) : List Line :=
  let first := rstrip (l.take bb.toNat)
  let remaining := lstrip (l.drop bb.toNat)
  first :: (if remaining.isEmpty then [] else [spaces ind ++ remaining])

/-- The greedy word-wrapping fallback of the final branch (the only branch
that can emit more than two lines). -/
def wwGo (maxL : Nat) (ind : Nat) : List Line → Line → Nat → List Line
  | [], cur, _ => if (strip cur).isEmpty then [] else [rstrip cur]
  | w :: t, cur, cl =>
    if cl + w.length + 1 > maxL then
      rstrip cur :: wwGo maxL ind t (spaces ind ++ w ++ [' ']) (ind + w.length + 1)
    else wwGo maxL ind t (cur ++ w ++ [' ']) (cl + w.length + 1)

def wordWrap (maxL : Nat) (ind : Nat) (l : Line) : List Line :=
  let words := splitWs l
  if 1 < words.length then wwGo maxL ind words (spaces ind) 0 else [l]

/-- What `fix_line_length` appends for one input line. -/
def lineLenEmit (maxL : Nat) (inCode : Bool) (l : Line) : List Line :=
  if isFenceLine l then [l]
  else if inCode then [l]
  else if (str "#").isPrefixOf (strip l) then [l]
  else if l.length ≤ maxL then [l]
  else if (str "- ").isPrefixOf (strip l) || (str "* ").isPrefixOf (strip l) then
    let ind := (l.takeWhile isPySpace).length
    let pfx := l.take (ind + 2)
    let rest := l.drop (ind + 2)
    let limit : Int := (maxL : Int) - pfx.length
    if (rest.length : Int) > limit then
      let bb1 := bestBreak rest limit
      let bb := if bb1 ≤ 0 then wordFallback limit bb1 (splitWs rest) else bb1
      if 0 < bb then
        let first := pfx ++ rstrip (rest.take bb.toNat)
        let remaining := lstrip (rest.drop bb.toNat)
        first :: (if remaining.isEmpty then [] else [spaces (ind + 2) ++ remaining])
      else [l]
    else [l]
  else if containsSub l (str "](http") then
    match findLinkStart l with
    | some s =>
      if s < maxL then
        let before := rstrip (l.take s)
        if before.isEmpty then [l] else [before, l.drop s]
      else
        let bb := bestBreak l (maxL : Int)
        if 0 < bb then splitAt2 l bb (l.takeWhile isPySpace).length else [l]
    | none =>
      let bb := bestBreak l (maxL : Int)
      if 0 < bb then splitAt2 l bb (l.takeWhile isPySpace).length else [l]
  else
    let bb := bestBreak l (maxL : Int)
    if 0 < bb then splitAt2 l bb (l.takeWhile isPySpace).length
    else wordWrap maxL (l.takeWhile isPySpace).length l

def llGo (maxL : Nat) (inCode : Bool) : List Line → List Line
  | [] => []
  | l :: rest =>
    lineLenEmit maxL inCode l ++
      llGo maxL (if isFenceLine l then !inCode else inCode) rest

def fixLineLength (content : List Char) (maxL : Nat) : List Char :=
  joinLines (llGo maxL false (splitLines content))

/-! ### The full pipeline of fix_markdown_file (fix set 'all') -/

structure Config where
  lineLength : Nat
  headingStyle : Line
  listIndent : Nat

/-- The content transformation `fix_markdown_file` applies with the `all`
fix set: whitespace, code blocks, lists (renumber then indent), headings,
blank lines, line length, in that order. -/
def fixAll (cfg : Config) (content : List Char) : List Char :=
  fixLineLength
    (fixBlankLines
      (fixHeadingStyle
        (fixListIndentConsistency
          (fixOrderedListPrefixes
            (fixFencedCodeBlocks
              (fixTrailingWhitespace content)))
          cfg.listIndent)
        cfg.headingStyle))
    cfg.lineLength

/-- The defaults of the configuration contract. -/
def defaultConfig : Config := ⟨120, str "atx", 2⟩

/-- A small line-length configuration (any configuration is admissible for
the universally quantified claims). -/
def cfgTen : Config := ⟨10, str "atx", 2⟩

/-! ### Checked (exception-modelling) embedding

A second, index-based translation of each transform, following the Python
`while i < len(lines)` loops literally.  Every list subscript is performed
through `pyGet`, which models Python indexing: negative indices wrap, and
an index out of range is an `IndexError`, modelled as `Except.error`.  The
division of `fix_list_indent_consistency` models `ZeroDivisionError` when
the configured width is zero and a list line is met.  The totality claim is
that these checked translations never error and agree with the structural
embedding above. -/

def pyGet (ls : List Line) (i : Int) : Except Unit Line :=
  let j : Int := if i < 0 then i + ls.length else i
  if j < 0 then .error ()
  else
    match ls.get? j.toNat with
    | some l => .ok l
    | none => .error ()

def wsGoChk (lines : List Line) (i : Nat) : Except Unit (List Line) :=
  if _h : i < lines.length then do
    let l ← pyGet lines i
    let rest ← wsGoChk lines (i + 1)
    pure (rstrip l :: rest)
  else pure []
termination_by lines.length - i

def fixTrailingWhitespaceChk (c : List Char) : Except Unit (List Char) :=
  (wsGoChk (splitLines c) 0).map joinLines

def fenGoChk (lines : List Line) (i : Nat) : Except Unit (List Line) :=
  if _h : i < lines.length then do
    let l ← pyGet lines i
    let out ←
      if isBareFence l then
        if i + 1 < lines.length then do
          let nl ← pyGet lines ((i : Int) + 1)
          pure (str "```" ++ inferLang nl)
        else pure (str "```bash")
      else pure l
    let rest ← fenGoChk lines (i + 1)
    pure (out :: rest)
  else pure []
termination_by lines.length - i

def fixFencedCodeBlocksChk (c : List Char) : Except Unit (List Char) :=
  (fenGoChk (splitLines c) 0).map joinLines

def olScanChk (lines : List Line) (j : Nat) : Except Unit Nat :=
  if _h : j < lines.length then do
    let l ← pyGet lines j
    if (strip l).isEmpty then olScanChk lines (j + 1)
    else pure (l.takeWhile isPySpace).length
  else pure 0
termination_by lines.length - j

def olGoChk (lines : List Line) (i : Nat) (cnt : List (Line × Nat)) (inCode : Bool) :
    Except Unit (List Line) :=
  if _h : i < lines.length then do
    let l ← pyGet lines i
    if isFenceLine l then do
      let rest ← olGoChk lines (i + 1) cnt (!inCode)
      pure (l :: rest)
    else if inCode then do
      let rest ← olGoChk lines (i + 1) cnt inCode
      pure (l :: rest)
    else
      match olMatch l with
      | some (ind, num, txt) => do
        let doReset ←
          if i = 0 then pure true
          else do
            let p ← pyGet lines ((i : Int) - 1)
            pure (olResetCond (some p))
        let cnt1 := if doReset then setCnt cnt ind 1 else cnt
        let correct := (getCnt cnt1 ind).getD 1
        let cnt2 := setCnt cnt1 ind (correct + 1)
        let rest ← olGoChk lines (i + 1) cnt2 inCode
        pure ((if num ≠ correct then ind ++ digitsOf correct ++ str ". " ++ txt else l) :: rest)
      | none =>
        if (strip l).isEmpty then do
          let ni ← olScanChk lines (i + 1)
          let rest ← olGoChk lines (i + 1) (cnt.filter (fun kv => kv.1.length < ni)) inCode
          pure (l :: rest)
        else do
          let rest ← olGoChk lines (i + 1) cnt inCode
          pure (l :: rest)
  else pure []
termination_by lines.length - i

def fixOrderedListPrefixesChk (c : List Char) : Except Unit (List Char) :=
  (olGoChk (splitLines c) 0 [] false).map joinLines

def liGoChk (lines : List Line) (width : Nat) (i : Nat) (inCode : Bool) :
    Except Unit (List Line) :=
  if _h : i < lines.length then do
    let l ← pyGet lines i
    if isFenceLine l then do
      let rest ← liGoChk lines width (i + 1) (!inCode)
      pure (l :: rest)
    else if inCode then do
      let rest ← liGoChk lines width (i + 1) inCode
      pure (l :: rest)
    else do
      let out ←
        if ulMatch l then
          if width = 0 then Except.error () else pure (liLine width l)
        else pure l
      let rest ← liGoChk lines width (i + 1) inCode
      pure (out :: rest)
  else pure []
termination_by lines.length - i

def fixListIndentConsistencyChk (c : List Char) (width : Nat) : Except Unit (List Char) :=
  (liGoChk (splitLines c) width 0 false).map joinLines

def hsGoChk (lines : List Line) (style : Line) (i : Nat) (inCode : Bool) :
    Except Unit (List Line) :=
  if _h : i < lines.length then do
    let l ← pyGet lines i
    if isFenceLine l then do
      let rest ← hsGoChk lines style (i + 1) (!inCode)
      pure (l :: rest)
    else if inCode then do
      let rest ← hsGoChk lines style (i + 1) inCode
      pure (l :: rest)
    else if i + 1 < lines.length then do
      let next ← pyGet lines ((i : Int) + 1)
      if setextUnder next then
        if style = str "atx" then do
          let rest ← hsGoChk lines style (i + 2) inCode
          pure ((List.replicate (if next.any (fun c => c == '=') then 1 else 2) '#'
            ++ ' ' :: strip l) :: rest)
        else do
          let rest ← hsGoChk lines style (i + 2) inCode
          pure (l :: next :: rest)
      else do
        let rest ← hsGoChk lines style (i + 1) inCode
        pure (atxHandle style l ++ rest)
    else do
      let rest ← hsGoChk lines style (i + 1) inCode
      pure (atxHandle style l ++ rest)
  else pure []
termination_by lines.length - i

def fixHeadingStyleChk (c : List Char) (style : Line) : Except Unit (List Char) :=
  (hsGoChk (splitLines c) style 0 false).map joinLines

def blGoChk (lines : List Line) (i : Nat) (inCode : Bool) (acc : List Line) :
    Except Unit (List Line) :=
  if _h : i < lines.length then do
    let l ← pyGet lines i
    if isFenceLine l then
      if inCode then do
        let acc1 := acc ++ [l]
        let acc2 ←
          if i + 1 < lines.length then do
            let nl ← pyGet lines ((i : Int) + 1)
            if !(strip nl).isEmpty && !(str "#").isPrefixOf (strip nl) then
              pure (acc1 ++ [[]])
            else pure acc1
          else pure acc1
        blGoChk lines (i + 1) false acc2
      else do
        let acc1 ←
          if 0 < i ∧ acc ≠ [] then do
            let lo ← pyGet acc (-1)
            if !(strip lo).isEmpty then pure (acc ++ [[]]) else pure acc
          else pure acc
        blGoChk lines (i + 1) true (acc1 ++ [l])
    else if inCode then blGoChk lines (i + 1) true (acc ++ [l])
    else if (str "#").isPrefixOf (strip l) then do
      let acc1 ←
        if 0 < i ∧ acc ≠ [] then do
          let lo ← pyGet acc (-1)
          if !(strip lo).isEmpty then pure (acc ++ [[]]) else pure acc
        else pure acc
      let acc2 := acc1 ++ [l]
      let acc3 ←
        if i + 1 < lines.length then do
          let nl ← pyGet lines ((i : Int) + 1)
          if !(strip nl).isEmpty then pure (acc2 ++ [[]]) else pure acc2
        else pure acc2
      blGoChk lines (i + 1) false acc3
    else if isListLine l then do
      let acc1 ←
        if 0 < i ∧ acc ≠ [] then do
          let lo ← pyGet acc (-1)
          let p := strip lo
          if !p.isEmpty && !isListLine p then pure (acc ++ [[]]) else pure acc
        else pure acc
      blGoChk lines (i + 1) false (acc1 ++ [l])
    else blGoChk lines (i + 1) false (acc ++ [l])
  else pure acc
termination_by lines.length - i

def fixBlankLinesChk (c : List Char) : Except Unit (List Char) :=
  (blGoChk (splitLines c) 0 false []).map (fun ls => joinLines (collapseGo false ls))

def llGoChk (lines : List Line) (maxL : Nat) (i : Nat) (inCode : Bool) :
    Except Unit (List Line) :=
  if _h : i < lines.length then do
    let l ← pyGet lines i
    let rest ← llGoChk lines maxL (i + 1) (if isFenceLine l then !inCode else inCode)
    pure (lineLenEmit maxL inCode l ++ rest)
  else pure []
termination_by lines.length - i

def fixLineLengthChk (c : List Char) (maxL : Nat) : Except Unit (List Char) :=
  (llGoChk (splitLines c) maxL 0 false).map joinLines

/-! ## Helper lemmas -/

theorem splitLines_ne_nil (c : List Char) : splitLines c ≠ [] := by
  induction c with
  | nil => simp [splitLines]
  | cons ch t ih =>
    rw [splitLines]
    cases e : splitLines t with
    | nil => simp
    | cons h r => by_cases hc : ch = '\n' <;> simp [hc]

theorem splitLines_no_newline (l : List Char) (h : ('\n' : Char) ∉ l) :
    splitLines l = [l] := by
  induction l with
  | nil => rfl
  | cons c t ih =>
    simp only [List.mem_cons, not_or] at h
    have hc : ¬(c = '\n') := fun e => h.1 e.symm
    rw [splitLines, ih h.2]
    simp [hc]

theorem splitLines_newline_append (l r : List Char) (h : ('\n' : Char) ∉ l) :
    splitLines (l ++ '\n' :: r) = l :: splitLines r := by
  induction l with
  | nil =>
    rw [List.nil_append, splitLines]
    cases e : splitLines r with
    | nil => exact absurd e (splitLines_ne_nil r)
    | cons hd tl => simp
  | cons c t ih =>
    simp only [List.mem_cons, not_or] at h
    have hc : ¬(c = '\n') := fun e => h.1 e.symm
    rw [List.cons_append, splitLines, ih h.2]
    simp [hc]

theorem joinLines_cons_cons (l m : Line) (r : List Line) :
    joinLines (l :: m :: r) = l ++ '\n' :: joinLines (m :: r) := rfl

theorem splitLines_joinLines (ls : List Line) (hne : ls ≠ [])
    (h : ∀ l ∈ ls, ('\n' : Char) ∉ l) : splitLines (joinLines ls) = ls := by
  induction ls with
  | nil => exact absurd rfl hne
  | cons l t ih =>
    cases t with
    | nil => exact splitLines_no_newline l (h l (by simp))
    | cons m r =>
      rw [joinLines_cons_cons, splitLines_newline_append _ _ (h l (by simp)),
        ih (by simp) (fun x hx => h x (List.mem_cons_of_mem _ hx))]

theorem dropWhile_idem (p : Char → Bool) (l : List Char) :
    (l.dropWhile p).dropWhile p = l.dropWhile p := by
  induction l with
  | nil => rfl
  | cons c t ih => by_cases h : p c <;> simp [List.dropWhile_cons, h, ih]

theorem rstrip_idem (l : Line) : rstrip (rstrip l) = rstrip l := by
  unfold rstrip
  rw [List.reverse_reverse, dropWhile_idem]

theorem strip_rstrip (l : Line) : strip (rstrip l) = strip l := by
  unfold strip
  rw [rstrip_idem]

theorem mem_rstrip {c : Char} {l : Line} (h : c ∈ rstrip l) : c ∈ l := by
  unfold rstrip at h
  rw [List.mem_reverse] at h
  exact List.mem_reverse.mp ((List.dropWhile_sublist _).subset h)

theorem rstrip_no_newline {l : Line} (h : ('\n' : Char) ∉ l) :
    ('\n' : Char) ∉ rstrip l := fun hc => h (mem_rstrip hc)

theorem splitLines_mem_no_newline (c : List Char) :
    ∀ l ∈ splitLines c, ('\n' : Char) ∉ l := by
  induction c with
  | nil =>
    intro l hl
    rcases List.mem_cons.mp hl with rfl | h
    · simp
    · simp at h
  | cons ch t ih =>
    intro l hl
    rw [splitLines] at hl
    cases e : splitLines t with
    | nil => exact absurd e (splitLines_ne_nil t)
    | cons hd tl =>
      rw [e] at hl
      replace hl : l ∈ (if ch = '\n' then [] :: hd :: tl else (ch :: hd) :: tl) := hl
      by_cases hc : ch = '\n'
      · rw [if_pos hc] at hl
        rcases List.mem_cons.mp hl with rfl | h
        · simp
        · exact ih l (e ▸ h)
      · rw [if_neg hc] at hl
        rcases List.mem_cons.mp hl with rfl | h
        · intro hmem
          rcases List.mem_cons.mp hmem with hh | hh
          · exact hc hh.symm
          · exact ih hd (e ▸ List.mem_cons_self hd tl) hh
        · exact ih l (e ▸ List.mem_cons_of_mem hd h)

/-! ## Claim theorems -/

/-- C1 (counterexample): the full pipeline is not idempotent.  With a line
length of 10, one application of the pipeline to
`aaaa. bbbb. cccc. dddd` wraps only once (the wrapper performs at most one
split per line per pass), leaving an over-length continuation line that a
second application splits again. -/
theorem fixAll_not_idempotent :
    fixAll cfgTen (fixAll cfgTen (str "aaaa. bbbb. cccc. dddd")) ≠
      fixAll cfgTen (str "aaaa. bbbb. cccc. dddd") := by decide

/-- C1 (amended): the pipeline as a whole is not idempotent (see the
counterexample), but its first stage is: stripping trailing whitespace
twice is the same as stripping it once, for every input. -/
theorem fixTrailingWhitespace_idem (c : List Char) :
    fixTrailingWhitespace (fixTrailingWhitespace c) = fixTrailingWhitespace c := by
  unfold fixTrailingWhitespace
  rw [splitLines_joinLines]
  · rw [List.map_map]
    exact congrArg joinLines (List.map_congr_left fun l _ => rstrip_idem l)
  · intro hmap
    exact splitLines_ne_nil c (List.map_eq_nil_iff.mp hmap)
  · intro l hl
    rcases List.mem_map.mp hl with ⟨x, hx, rfl⟩
    exact rstrip_no_newline (splitLines_mem_no_newline c x hx)

/-! ### Helper lemmas for the fenced-content frame theorem (C2) -/

theorem inferLangCore_cases (n : Line) :
    inferLangCore n = str "bash" ∨ inferLangCore n = str "yaml" ∨
      inferLangCore n = str "json" ∨ inferLangCore n = str "html" ∨
      inferLangCore n = str "python" ∨ inferLangCore n = str "javascript" ∨
      inferLangCore n = str "sql" ∨ inferLangCore n = str "c" := by
  unfold inferLangCore
  by_cases h1 : ((str "docker ").isPrefixOf n || (str "docker-compose").isPrefixOf n) = true
  · rw [if_pos h1]
    exact Or.inl rfl
  rw [if_neg h1]
  by_cases h2 : ((str "npm ").isPrefixOf n || (str "node ").isPrefixOf n) = true
  · rw [if_pos h2]
    exact Or.inl rfl
  rw [if_neg h2]
  by_cases h3 : ((str "git ").isPrefixOf n || (str "cd ").isPrefixOf n) = true
  · rw [if_pos h3]
    exact Or.inl rfl
  rw [if_neg h3]
  by_cases h4 : ((str "make ").isPrefixOf n || (str "sudo ").isPrefixOf n) = true
  · rw [if_pos h4]
    exact Or.inl rfl
  rw [if_neg h4]
  by_cases h5 : ((str "curl ").isPrefixOf n || (str "wget ").isPrefixOf n) = true
  · rw [if_pos h5]
    exact Or.inl rfl
  rw [if_neg h5]
  by_cases h6 : (containsSub n (str "version:") || containsSub n (str "services:")) = true
  · rw [if_pos h6]
    exact Or.inr (Or.inl rfl)
  rw [if_neg h6]
  by_cases h7 : ((str "\x7b").isPrefixOf n || (str "[").isPrefixOf n) = true
  · rw [if_pos h7]
    exact Or.inr (Or.inr (Or.inl rfl))
  rw [if_neg h7]
  by_cases h8 : ((str "<").isPrefixOf n && containsSub n (str ">")) = true
  · rw [if_pos h8]
    exact Or.inr (Or.inr (Or.inr (Or.inl rfl)))
  rw [if_neg h8]
  by_cases h9 : (containsSub n (str "def ") || containsSub n (str "import ") || (str "class ").isPrefixOf n) = true
  · rw [if_pos h9]
    exact Or.inr (Or.inr (Or.inr (Or.inr (Or.inl rfl))))
  rw [if_neg h9]
  by_cases h10 : (containsSub n (str "function ") || containsSub n (str "const ") || containsSub n (str "var ") || containsSub n (str "let ")) = true
  · rw [if_pos h10]
    exact Or.inr (Or.inr (Or.inr (Or.inr (Or.inr (Or.inl rfl)))))
  rw [if_neg h10]
  by_cases h11 : (containsSub (upperLine n) (str "SELECT ") || containsSub (upperLine n) (str "CREATE TABLE")) = true
  · rw [if_pos h11]
    exact Or.inr (Or.inr (Or.inr (Or.inr (Or.inr (Or.inr (Or.inl rfl))))))
  rw [if_neg h11]
  by_cases h12 : (containsSub n (str "#!/bin/bash") || containsSub n (str "#!/usr/bin/env bash")) = true
  · rw [if_pos h12]
    exact Or.inl rfl
  rw [if_neg h12]
  by_cases h13 : (containsSub n (str "#!/usr/bin/env python")) = true
  · rw [if_pos h13]
    exact Or.inr (Or.inr (Or.inr (Or.inr (Or.inl rfl))))
  rw [if_neg h13]
  by_cases h14 : (containsSub n (str "#include ") || containsSub n (str "int main")) = true
  · rw [if_pos h14]
    exact Or.inr (Or.inr (Or.inr (Or.inr (Or.inr (Or.inr (Or.inr (rfl)))))))
  rw [if_neg h14]
  exact Or.inl rfl

theorem inferLang_cases (n : Line) :
    inferLang n = str "bash" ∨ inferLang n = str "yaml" ∨ inferLang n = str "json" ∨
      inferLang n = str "html" ∨ inferLang n = str "python" ∨
      inferLang n = str "javascript" ∨ inferLang n = str "sql" ∨ inferLang n = str "c" :=
  inferLangCore_cases (strip n)

theorem fenceTagLine_isFence (o : Option Line) : isFenceLine (fenceTagLine o) = true := by
  cases o with
  | none => decide
  | some n =>
    rcases inferLang_cases n with h | h | h | h | h | h | h | h <;>
      (show isFenceLine (str "```" ++ inferLang n) = true; rw [h]; decide)

theorem fenceTagLine_no_newline (o : Option Line) : ('\n' : Char) ∉ fenceTagLine o := by
  cases o with
  | none => decide
  | some n =>
    rcases inferLang_cases n with h | h | h | h | h | h | h | h <;>
      (show ('\n' : Char) ∉ str "```" ++ inferLang n; rw [h]; decide)

theorem fenceTagLine_nonblank (o : Option Line) : (strip (fenceTagLine o)).isEmpty = false := by
  cases o with
  | none => decide
  | some n =>
    rcases inferLang_cases n with h | h | h | h | h | h | h | h <;>
      (show (strip (str "```" ++ inferLang n)).isEmpty = false; rw [h]; decide)

theorem rstrip_append_all_ws {r : Line} (h : r.all isPySpace = true) (l : Line) :
    rstrip (l ++ r) = rstrip l := by
  unfold rstrip
  rw [List.reverse_append, List.dropWhile_append_of_pos]
  intro a ha
  exact List.all_eq_true.mp h a (List.mem_reverse.mp ha)

theorem bare_is_fence {x : Line} (h : isBareFence x = true) : isFenceLine x = true := by
  rw [isBareFence, Bool.and_eq_true] at h
  obtain ⟨h1, h2⟩ := h
  obtain ⟨t, rfl⟩ : ∃ t, x = str "```" ++ t := by
    obtain ⟨t, ht⟩ := List.isPrefixOf_iff_prefix.mp h1
    exact ⟨t, ht.symm⟩
  have ht : t.all isPySpace = true := by simpa [str] using h2
  rw [isFenceLine, strip, rstrip_append_all_ws ht]
  decide

theorem isFenceLine_rstrip (l : Line) : isFenceLine (rstrip l) = isFenceLine l := by
  rw [isFenceLine, isFenceLine, strip_rstrip]

theorem not_fence_not_bare {l : Line} (h : isFenceLine l = false) : isBareFence l = false := by
  by_contra hb
  rw [Bool.not_eq_false] at hb
  rw [bare_is_fence hb] at h
  exact absurd h (by simp)

theorem fen_passthrough (mid : List Line) (hnb : ∀ l ∈ mid, isBareFence l = false) :
    fixFencedLines (mid ++ [str "```"]) = mid ++ [str "```bash"] := by
  induction mid with
  | nil => decide
  | cons m t ih =>
    rw [List.cons_append, fixFencedLines,
      if_neg (by simp [hnb m (List.mem_cons_self m t)]),
      ih (fun l hl => hnb l (List.mem_cons_of_mem m hl)), List.cons_append]

theorem ol_passthrough (cl : Line) (hcl : isFenceLine cl = true) (mid : List Line)
    (hnf : ∀ l ∈ mid, isFenceLine l = false) :
    ∀ prev cnt, olGo prev cnt true (mid ++ [cl]) = mid ++ [cl] := by
  induction mid with
  | nil =>
    intro prev cnt
    rw [List.nil_append]
    simp [olGo, hcl]
  | cons m t ih =>
    intro prev cnt
    rw [List.cons_append]
    simp only [olGo, hnf m (List.mem_cons_self m t), Bool.false_eq_true, if_false, if_true,
      ih (fun l hl => hnf l (List.mem_cons_of_mem m hl))]

theorem li_passthrough (cl : Line) (hcl : isFenceLine cl = true) (w : Nat) (mid : List Line)
    (hnf : ∀ l ∈ mid, isFenceLine l = false) :
    liGo w true (mid ++ [cl]) = mid ++ [cl] := by
  induction mid with
  | nil =>
    rw [List.nil_append]
    simp [liGo, hcl]
  | cons m t ih =>
    rw [List.cons_append]
    simp only [liGo, hnf m (List.mem_cons_self m t), Bool.false_eq_true, if_false, if_true,
      ih (fun l hl => hnf l (List.mem_cons_of_mem m hl))]

theorem ll_passthrough (cl : Line) (hcl : isFenceLine cl = true) (mx : Nat) (mid : List Line)
    (hnf : ∀ l ∈ mid, isFenceLine l = false) :
    llGo mx true (mid ++ [cl]) = mid ++ [cl] := by
  induction mid with
  | nil =>
    rw [List.nil_append]
    show lineLenEmit mx true cl ++ llGo mx _ [] = [cl]
    rw [lineLenEmit, if_pos hcl]
    rfl
  | cons m t ih =>
    rw [List.cons_append]
    show lineLenEmit mx true m ++ llGo mx (if isFenceLine m then !true else true) (t ++ [cl]) =
      m :: (t ++ [cl])
    rw [lineLenEmit, if_neg (by simp [hnf m (List.mem_cons_self m t)]), if_pos rfl,
      hnf m (List.mem_cons_self m t)]
    show [m] ++ llGo mx true (t ++ [cl]) = m :: (t ++ [cl])
    rw [ih (fun l hl => hnf l (List.mem_cons_of_mem m hl))]
    rfl

theorem hs_passthrough (cl : Line) (hcl : isFenceLine cl = true) (style : Line)
    (mid : List Line) (hnf : ∀ l ∈ mid, isFenceLine l = false) :
    hsGo style true (mid ++ [cl]) = mid ++ [cl] := by
  induction mid with
  | nil =>
    rw [List.nil_append]
    simp [hsGo, hcl]
  | cons m t ih =>
    have ihh := ih (fun l hl => hnf l (List.mem_cons_of_mem m hl))
    cases t with
    | nil =>
      simp only [List.nil_append, List.cons_append]
      simp [hsGo, hnf m (List.mem_cons_self m []), hcl]
    | cons t0 ts =>
      simp only [List.cons_append]
      simp only [hsGo, hnf m (List.mem_cons_self m (t0 :: ts)), Bool.false_eq_true, if_false,
        if_true]
      rw [List.cons_append] at ihh
      rw [ihh]

theorem bl_passthrough (cl : Line) (hcl : isFenceLine cl = true) (mid : List Line)
    (hnf : ∀ l ∈ mid, isFenceLine l = false) :
    ∀ lastOut, blGo false lastOut true (mid ++ [cl]) = mid ++ [cl] := by
  induction mid with
  | nil =>
    intro lastOut
    rw [List.nil_append]
    simp [blGo, hcl]
  | cons m t ih =>
    intro lastOut
    rw [List.cons_append]
    simp only [blGo, hnf m (List.mem_cons_self m t), Bool.false_eq_true, if_false, if_true,
      ih (fun l hl => hnf l (List.mem_cons_of_mem m hl)) (some m)]

theorem collapse_append_nonblank {cl : Line} (hcl : (strip cl).isEmpty = false) :
    ∀ (pb : Bool) (xs : List Line), collapseGo pb (xs ++ [cl]) = collapseGo pb xs ++ [cl] := by
  intro pb xs
  induction xs generalizing pb with
  | nil => simp [collapseGo, hcl]
  | cons x t ih =>
    rw [List.cons_append]
    simp only [collapseGo]
    by_cases hx : (strip x).isEmpty = true
    · rw [if_pos hx, if_pos hx]
      by_cases hpb : pb = true
      · rw [if_pos hpb, if_pos hpb, ih]
      · rw [if_neg hpb, if_neg hpb, ih]
        simp [List.cons_append]
    · rw [if_neg hx, if_neg hx, ih]
      simp [List.cons_append]

theorem mem_collapseGo {l : Line} :
    ∀ (pb : Bool) (xs : List Line), l ∈ collapseGo pb xs → l ∈ xs := by
  intro pb xs
  induction xs generalizing pb with
  | nil => intro h; simp [collapseGo] at h
  | cons x t ih =>
    intro h
    simp only [collapseGo] at h
    by_cases hx : (strip x).isEmpty = true
    · rw [if_pos hx] at h
      by_cases hpb : pb = true
      · rw [if_pos hpb] at h
        exact List.mem_cons_of_mem x (ih true h)
      · rw [if_neg hpb] at h
        rcases List.mem_cons.mp h with rfl | h2
        · exact List.mem_cons_self _ _
        · exact List.mem_cons_of_mem x (ih true h2)
    · rw [if_neg hx] at h
      rcases List.mem_cons.mp h with rfl | h2
      · exact List.mem_cons_self _ _
      · exact List.mem_cons_of_mem x (ih false h2)

theorem hs_full (op cl : Line) (hop : isFenceLine op = true) (hcl : isFenceLine cl = true)
    (style : Line) (mid : List Line) (hnf : ∀ l ∈ mid, isFenceLine l = false) :
    hsGo style false (op :: mid ++ [cl]) = op :: mid ++ [cl] := by
  cases mid with
  | nil => simp [hsGo, hop, hcl]
  | cons m t =>
    simp only [List.cons_append]
    simp only [hsGo, hop, if_true, Bool.not_false]
    have h := hs_passthrough cl hcl style (m :: t) hnf
    rw [List.cons_append] at h
    rw [h]

theorem bl_full (op cl : Line) (hop : isFenceLine op = true) (hcl : isFenceLine cl = true)
    (mid : List Line) (hnf : ∀ l ∈ mid, isFenceLine l = false) :
    blGo true none false (op :: (mid ++ [cl])) = op :: (mid ++ [cl]) := by
  simp only [blGo, hop, Bool.false_eq_true, if_false, if_true, if_pos rfl,
    List.nil_append, List.getLast?_singleton]
  rw [bl_passthrough cl hcl mid hnf (some op)]
  rfl

/-- C2 (amended): for every well-formed fence pair whose content lines
contain no fence-delimiter lines (and no newline characters, so that they
are lines at all), and for every configuration, the full pipeline preserves
the fenced content except for (a) trailing-whitespace stripping and (b) the
final subpass of `fix_blank_lines`, which also collapses each run of two or
more consecutive blank lines inside the fence to a single blank line.  No
other transform alters, inserts or deletes fenced content.  The opening
delimiter is tagged from the first line after it and the closing bare
delimiter is rewritten to a bash-tagged fence. -/
theorem fencedContent_pipeline (cfg : Config) (mid : List Line)
    (hnl : ∀ l ∈ mid, ('\n' : Char) ∉ l)
    (hnf : ∀ l ∈ mid, isFenceLine l = false) :
    fixAll cfg (joinLines (str "```" :: mid ++ [str "```"])) =
      joinLines
        (fenceTagLine ((mid.map rstrip ++ [str "```"]).head?) ::
          (collapseGo false (mid.map rstrip) ++ [str "```bash"])) := by
  have hnl' : ∀ l ∈ mid.map rstrip, ('\n' : Char) ∉ l := by
    intro l hl
    rcases List.mem_map.mp hl with ⟨x, hx, rfl⟩
    exact rstrip_no_newline (hnl x hx)
  have hnf' : ∀ l ∈ mid.map rstrip, isFenceLine l = false := by
    intro l hl
    rcases List.mem_map.mp hl with ⟨x, hx, rfl⟩
    rw [isFenceLine_rstrip]
    exact hnf x hx
  have hnb' : ∀ l ∈ mid.map rstrip, isBareFence l = false :=
    fun l hl => not_fence_not_bare (hnf' l hl)
  have htagF : isFenceLine (fenceTagLine ((mid.map rstrip ++ [str "```"]).head?)) = true :=
    fenceTagLine_isFence _
  have htagN : ('\n' : Char) ∉ fenceTagLine ((mid.map rstrip ++ [str "```"]).head?) :=
    fenceTagLine_no_newline _
  have htagB :
      (strip (fenceTagLine ((mid.map rstrip ++ [str "```"]).head?))).isEmpty = false :=
    fenceTagLine_nonblank _
  have hnfC : ∀ l ∈ collapseGo false (mid.map rstrip), isFenceLine l = false :=
    fun l hl => hnf' l (mem_collapseGo false _ hl)
  have memIn : ∀ l ∈ str "```" :: mid ++ [str "```"], ('\n' : Char) ∉ l := by
    intro l hl
    rcases List.mem_cons.mp hl with rfl | hl
    · decide
    rcases List.mem_append.mp hl with hm | hm
    · exact hnl l hm
    · rw [List.mem_singleton.mp hm]; decide
  have memIn2 : ∀ l ∈ str "```" :: mid.map rstrip ++ [str "```"], ('\n' : Char) ∉ l := by
    intro l hl
    rcases List.mem_cons.mp hl with rfl | hl
    · decide
    rcases List.mem_append.mp hl with hm | hm
    · exact hnl' l hm
    · rw [List.mem_singleton.mp hm]; decide
  have memIn3 :
      ∀ l ∈ fenceTagLine ((mid.map rstrip ++ [str "```"]).head?) ::
          mid.map rstrip ++ [str "```bash"], ('\n' : Char) ∉ l := by
    intro l hl
    rcases List.mem_cons.mp hl with rfl | hl
    · exact htagN
    rcases List.mem_append.mp hl with hm | hm
    · exact hnl' l hm
    · rw [List.mem_singleton.mp hm]; decide
  have memIn7 :
      ∀ l ∈ fenceTagLine ((mid.map rstrip ++ [str "```"]).head?) ::
          (collapseGo false (mid.map rstrip) ++ [str "```bash"]), ('\n' : Char) ∉ l := by
    intro l hl
    rcases List.mem_cons.mp hl with rfl | hl
    · exact htagN
    rcases List.mem_append.mp hl with hm | hm
    · exact hnl' l (mem_collapseGo false _ hm)
    · rw [List.mem_singleton.mp hm]; decide
  have s1 : fixTrailingWhitespace (joinLines (str "```" :: mid ++ [str "```"])) =
      joinLines (str "```" :: mid.map rstrip ++ [str "```"]) := by
    rw [fixTrailingWhitespace, splitLines_joinLines _ (by simp) memIn]
    congr 1
    simp [List.map_append, show rstrip (str "```") = str "```" from by decide]
  have s2 : fixFencedCodeBlocks (joinLines (str "```" :: mid.map rstrip ++ [str "```"])) =
      joinLines (fenceTagLine ((mid.map rstrip ++ [str "```"]).head?) ::
        mid.map rstrip ++ [str "```bash"]) := by
    rw [fixFencedCodeBlocks, splitLines_joinLines _ (by simp) memIn2]
    congr 1
    show fixFencedLines (str "```" :: (mid.map rstrip ++ [str "```"])) = _
    rw [fixFencedLines, if_pos (show isBareFence (str "```") = true from by decide),
      fen_passthrough _ hnb', List.cons_append]
  have s3 : fixOrderedListPrefixes
      (joinLines (fenceTagLine ((mid.map rstrip ++ [str "```"]).head?) ::
        mid.map rstrip ++ [str "```bash"])) =
      joinLines (fenceTagLine ((mid.map rstrip ++ [str "```"]).head?) ::
        mid.map rstrip ++ [str "```bash"]) := by
    rw [fixOrderedListPrefixes, splitLines_joinLines _ (by simp) memIn3]
    congr 1
    show olGo none [] false (_ :: (mid.map rstrip ++ [str "```bash"])) = _
    rw [olGo]
    rw [if_pos htagF, Bool.not_false,
      ol_passthrough (str "```bash") (by decide) _ hnf' _ _, List.cons_append]
  have s4 : fixListIndentConsistency
      (joinLines (fenceTagLine ((mid.map rstrip ++ [str "```"]).head?) ::
        mid.map rstrip ++ [str "```bash"])) cfg.listIndent =
      joinLines (fenceTagLine ((mid.map rstrip ++ [str "```"]).head?) ::
        mid.map rstrip ++ [str "```bash"]) := by
    rw [fixListIndentConsistency, splitLines_joinLines _ (by simp) memIn3]
    congr 1
    show liGo cfg.listIndent false (_ :: (mid.map rstrip ++ [str "```bash"])) = _
    rw [liGo]
    rw [if_pos htagF, Bool.not_false, li_passthrough (str "```bash") (by decide) _ _ hnf',
      List.cons_append]
  have s5 : fixHeadingStyle
      (joinLines (fenceTagLine ((mid.map rstrip ++ [str "```"]).head?) ::
        mid.map rstrip ++ [str "```bash"])) cfg.headingStyle =
      joinLines (fenceTagLine ((mid.map rstrip ++ [str "```"]).head?) ::
        mid.map rstrip ++ [str "```bash"]) := by
    rw [fixHeadingStyle, splitLines_joinLines _ (by simp) memIn3]
    congr 1
    exact hs_full _ _ htagF (by decide) _ _ hnf'
  have s6 : fixBlankLines
      (joinLines (fenceTagLine ((mid.map rstrip ++ [str "```"]).head?) ::
        mid.map rstrip ++ [str "```bash"])) =
      joinLines (fenceTagLine ((mid.map rstrip ++ [str "```"]).head?) ::
        (collapseGo false (mid.map rstrip) ++ [str "```bash"])) := by
    rw [fixBlankLines, splitLines_joinLines _ (by simp) memIn3]
    congr 1
    show collapseGo false
        (blGo true none false (_ :: (mid.map rstrip ++ [str "```bash"]))) = _
    rw [bl_full _ (str "```bash") htagF (by decide) _ hnf']
    rw [collapseGo, if_neg (by simp only [htagB]; simp), collapse_append_nonblank (by decide)]
  have s7 : fixLineLength
      (joinLines (fenceTagLine ((mid.map rstrip ++ [str "```"]).head?) ::
        (collapseGo false (mid.map rstrip) ++ [str "```bash"]))) cfg.lineLength =
      joinLines (fenceTagLine ((mid.map rstrip ++ [str "```"]).head?) ::
        (collapseGo false (mid.map rstrip) ++ [str "```bash"])) := by
    rw [fixLineLength, splitLines_joinLines _ (by simp) memIn7]
    congr 1
    show llGo cfg.lineLength false
        (_ :: (collapseGo false (mid.map rstrip) ++ [str "```bash"])) = _
    rw [llGo]
    rw [lineLenEmit, if_pos htagF, htagF]
    show [_] ++ llGo cfg.lineLength true _ = _
    rw [ll_passthrough (str "```bash") (by decide) _ _ hnfC]
    rfl
  rw [fixAll, s1, s2, s3, s4, s5, s6, s7]

/-- C2 (witness): the frame theorem applied to the concrete fenced document
with content `hello` under the default configuration. -/
theorem fencedContent_pipeline_witness :
    fixAll defaultConfig (joinLines (str "```" :: [str "hello"] ++ [str "```"])) =
      joinLines
        (fenceTagLine (([str "hello"].map rstrip ++ [str "```"]).head?) ::
          (collapseGo false ([str "hello"].map rstrip) ++ [str "```bash"])) :=
  fencedContent_pipeline defaultConfig [str "hello"] (by decide) (by decide)

/-- C2 (counterexample): the blank-line collapsing subpass of
`fix_blank_lines` runs with no code-block tracking, so the two consecutive
blank lines inside this well-formed fence pair are collapsed to one: a
fenced-content line is deleted by the full pipeline, not merely stripped of
trailing whitespace. -/
theorem fixAll_collapses_fenced_blanks :
    splitLines (fixAll defaultConfig (str "```\na\n\n\nb\n```")) =
      [str "```bash", str "a", str "", str "b", str "```bash"] ∧
      [str "a", str "", str "b"] ≠ [str "a", str "", str "", str "b"].map rstrip := by
  decide

/-- C3 (counterexample): `fix_fenced_code_blocks` does not pass a bare
closing delimiter through: for the well-formed pair around `hello`, the
closing bare fence (the third line) is rewritten to a tagged fence. -/
theorem fixFenced_rewrites_closing :
    (splitLines (fixFencedCodeBlocks (str "```\nhello\n```"))).get? 2 =
      some (str "```bash") ∧ str "```bash" ≠ str "```" := by decide

/-- C3 (amended): the pass maps each line independently: every line
matching the bare-fence pattern — opening or closing alike — is replaced by
a fence tagged from the immediately following line (bash when there is
none), and every other line is passed through. -/
theorem fixFencedLines_char (doc : List Line) (i : Nat) :
    (fixFencedLines doc).get? i =
      (doc.get? i).map
        (fun l => if isBareFence l then fenceTagLine (doc.get? (i + 1)) else l) := by
  induction doc generalizing i with
  | nil => simp [fixFencedLines]
  | cons l rest ih =>
    cases i with
    | zero =>
      simp [fixFencedLines, List.get?_cons_zero, List.get?_cons_succ, List.get?_zero,
        List.head?_eq_getElem?]
    | succ n =>
      simp only [fixFencedLines, List.get?_cons_succ]
      exact ih n

/-- C4 (code bug): with the setext target, a level-1 ATX heading is
underlined with the single character `=` rather than an underline matching
the length of the heading text: Python's conditional expression binds
looser than `*`, so `'=' if level == 1 else '-' * len(heading_text)`
evaluates to `'='` for level 1. -/
theorem fixHeadingStyle_setext_level1_underline :
    fixHeadingStyle (str "# Title") (str "setext") = str "Title\n=" ∧
      str "Title\n=" ≠ str "Title\n=====" := by decide

/-- C5 (code bug): the setext lookahead never checks that the current line
is non-blank, so a blank line followed by the thematic break `---` is
consumed as a setext heading and rewritten to an empty level-2 ATX heading
`## ` instead of being left unchanged. -/
theorem fixHeadingStyle_blank_thematic_break :
    fixHeadingStyle (str "\n---") (str "atx") = str "## " ∧
      str "## " ≠ str "\n---" := by decide

/-- C6 (counterexample): the reset rule consults the immediately preceding
line, not the previous non-blank line, and accepts an ordered item at any
indentation.  First document: the item `7. c` follows an ordered item at a
different indentation, yet its counter is not reset (it is renumbered to
`2`, continuing the outer list, where the claim demands `1`).  Second
document: a blank line alone does trigger the reset (the item `7. b` is
renumbered to `1`, where the claim's rule would continue with `2`). -/
theorem fixOrderedListPrefixes_reset_counterexample :
    fixOrderedListPrefixes (str "1. a\n  1. b\n7. c") = str "1. a\n  1. b\n2. c" ∧
      fixOrderedListPrefixes (str "1. a\n\n7. b") = str "1. a\n\n1. b" := by decide

/-- C7: the fence-language classifier is a first-match-wins function of the
line after a bare fence, with bash as the default: `docker run nginx`
yields a bash tag, `{"a":1}` yields a json tag, and a bare fence that ends
the document yields bash. -/
theorem fenceLang_first_match :
    (∀ rest : List Line,
        fixFencedLines (str "```" :: str "docker run nginx" :: rest) =
          str "```bash" :: str "docker run nginx" :: fixFencedLines rest) ∧
      (∀ rest : List Line,
        fixFencedLines (str "```" :: str "\x7b\"a\":1\x7d" :: rest) =
          str "```json" :: str "\x7b\"a\":1\x7d" :: fixFencedLines rest) ∧
      fixFencedCodeBlocks (str "```") = str "```bash" := by
  refine ⟨fun rest => ?_, fun rest => ?_, by decide⟩ <;> rfl

/-- C8: a line whose length is at most the configured maximum is never
split: the per-line emitter returns it unchanged in every state, and a
document all of whose lines are within the limit passes through the whole
line-length pass untouched. -/
theorem lineLength_short_lines_unchanged :
    (∀ (mx : Nat) (st : Bool) (l : Line), l.length ≤ mx → lineLenEmit mx st l = [l]) ∧
      ∀ (mx : Nat) (st : Bool) (ls : List Line),
        (∀ l ∈ ls, l.length ≤ mx) → llGo mx st ls = ls := by
  have h1 : ∀ (mx : Nat) (st : Bool) (l : Line), l.length ≤ mx → lineLenEmit mx st l = [l] := by
    intro mx st l h
    unfold lineLenEmit
    repeat' split
    all_goals rfl
  refine ⟨h1, ?_⟩
  intro mx st ls
  induction ls generalizing st with
  | nil => intro _; rfl
  | cons l rest ih =>
    intro h
    show lineLenEmit mx st l ++ llGo mx _ rest = l :: rest
    rw [h1 mx st l (h l (List.mem_cons_self l rest)),
      ih _ (fun x hx => h x (List.mem_cons_of_mem l hx))]
    rfl

theorem digit_not_space {c : Char} (h : c.isDigit = true) : isPySpace c = false := by
  by_contra hne
  rw [Bool.not_eq_false, isPySpace] at hne
  simp only [Bool.or_eq_true, beq_iff_eq] at hne
  rcases hne with ((((rfl | rfl) | rfl) | rfl) | rfl) | rfl <;> exact absurd h (by decide)

theorem digit_ne {c : Char} (x : Char) (h : c.isDigit = true) (hx : x.isDigit = false) :
    c ≠ x := by
  intro e
  rw [e, hx] at h
  exact absurd h (by simp)

theorem lstrip_cons_of_not_space {c : Char} (h : isPySpace c = false) (t : Line) :
    lstrip (c :: t) = c :: t := by
  simp [lstrip, List.dropWhile_cons, h]

theorem rstrip_append_last {c : Char} (h : isPySpace c = false) (l : Line) :
    rstrip (l ++ [c]) = l ++ [c] := by
  unfold rstrip
  rw [List.reverse_append]
  simp [List.dropWhile_cons, h]

/-- The line `<digits>. c` for a non-empty digit string: how the
ordered-list pass reads it. -/
theorem olLine_facts (d : Line) (hne : d ≠ []) (hdig : ∀ c ∈ d, c.isDigit = true) :
    isFenceLine (d ++ str ". c") = false ∧
      olMatch (d ++ str ". c") = some ([], natOfDigits d, str "c") ∧
      (strip (d ++ str ". c")).isEmpty = false ∧
      (d ++ str ". c").takeWhile isPySpace = [] ∧
      ('\n' : Char) ∉ (d ++ str ". c") := by
  obtain ⟨c0, t, rfl⟩ : ∃ c0 t, d = c0 :: t := by
    cases d with
    | nil => exact absurd rfl hne
    | cons c0 t => exact ⟨c0, t, rfl⟩
  have hc0 : c0.isDigit = true := hdig c0 (List.mem_cons_self c0 t)
  have hsp : isPySpace c0 = false := digit_not_space hc0
  have hwhole : (c0 :: t) ++ str ". c" = (c0 :: t ++ str ". ") ++ ['c'] := by simp [str]
  have hstrip : strip ((c0 :: t) ++ str ". c") = (c0 :: t) ++ str ". c" := by
    rw [strip, hwhole, rstrip_append_last (by decide), ← hwhole, List.cons_append,
      lstrip_cons_of_not_space hsp]
  have htake : ((c0 :: t) ++ str ". c").takeWhile isPySpace = [] := by
    rw [List.cons_append]
    simp [List.takeWhile_cons, hsp]
  have hds : ((c0 :: t) ++ str ". c").takeWhile Char.isDigit = c0 :: t := by
    rw [List.takeWhile_append_of_pos hdig]
    simp [str, List.takeWhile_cons]
  refine ⟨?_, ?_, ?_, htake, ?_⟩
  · rw [isFenceLine, hstrip, List.cons_append]
    have hbt : (('\x60' : Char) == c0) = false :=
      beq_eq_false_iff_ne.mpr (digit_ne '\x60' hc0 (by decide)).symm
    simp [str, List.isPrefixOf, hbt]
  · rw [olMatch]
    have hdrop : ((c0 :: t) ++ str ". c").dropWhile isPySpace = (c0 :: t) ++ str ". c" := by
      rw [List.cons_append]
      simp [List.dropWhile_cons, hsp]
    rw [htake, hdrop, hds]
    have hlen : ((c0 :: t) ++ str ". c").drop (c0 :: t).length = str ". c" :=
      List.drop_left (c0 :: t) (str ". c")
    simp only [hlen]
    simp [str, isPySpace]
  · rw [hstrip]
    simp
  · intro hmem
    rcases List.mem_append.mp hmem with hm | hm
    · exact absurd rfl (digit_ne '\n' (hdig _ hm) (by decide))
    · simp [str] at hm

/-- C6 (amended): the counter for an indentation is reset to 1 exactly when
the item is the document's first line, the immediately preceding line is
blank, or the immediately preceding line does not match the ordered-list
pattern at any indentation.  Consequently an ordered item whose immediately
preceding line is an ordered item at a different indentation does not reset
(the first family: the outer counter continues with 2), while a blank line
immediately before an ordered item does reset its counter to 1 (the second
family), for every source item number. -/
theorem olRenumber_reset_rule (d₁ d₂ : Line)
    (h1ne : d₁ ≠ []) (h1dig : ∀ c ∈ d₁, c.isDigit = true) (h1v : natOfDigits d₁ ≠ 2)
    (h2ne : d₂ ≠ []) (h2dig : ∀ c ∈ d₂, c.isDigit = true) (h2v : natOfDigits d₂ ≠ 1) :
    fixOrderedListPrefixes (joinLines [str "1. a", str "  1. b", d₁ ++ str ". c"]) =
        joinLines [str "1. a", str "  1. b", str "2. c"] ∧
      fixOrderedListPrefixes (joinLines [str "1. a", str "", d₂ ++ str ". c"]) =
        joinLines [str "1. a", str "", str "1. c"] := by
  obtain ⟨hf1, hm1, hs1, ht1, hn1⟩ := olLine_facts d₁ h1ne h1dig
  obtain ⟨hf2, hm2, hs2, ht2, hn2⟩ := olLine_facts d₂ h2ne h2dig
  constructor
  · rw [fixOrderedListPrefixes,
      splitLines_joinLines _ (by simp)
        (by
          intro l hl
          simp only [List.mem_cons, List.not_mem_nil, or_false] at hl
          rcases hl with rfl | rfl | rfl
          · decide
          · decide
          · exact hn1)]
    simp only [olGo, hf1, hm1,
      show isFenceLine (str "1. a") = false from by decide,
      show isFenceLine (str "  1. b") = false from by decide,
      show olMatch (str "1. a") = some ([], 1, str "a") from by decide,
      show olMatch (str "  1. b") = some ([' ', ' '], 1, str "b") from by decide,
      show olResetCond none = true from by decide,
      show olResetCond (some (str "1. a")) = false from by decide,
      show olResetCond (some (str "  1. b")) = false from by decide]
    simp only [getCnt, setCnt, if_pos, if_neg]
    simp [h1v]
    decide
  · rw [fixOrderedListPrefixes,
      splitLines_joinLines _ (by simp)
        (by
          intro l hl
          simp only [List.mem_cons, List.not_mem_nil, or_false] at hl
          rcases hl with rfl | rfl | rfl
          · decide
          · decide
          · exact hn2)]
    simp only [olGo, hf2, hm2, hs2, ht2, nextNonBlankIndent,
      show isFenceLine (str "1. a") = false from by decide,
      show isFenceLine (str "") = false from by decide,
      show olMatch (str "1. a") = some ([], 1, str "a") from by decide,
      show olMatch (str "") = none from by decide,
      show olResetCond none = true from by decide,
      show olResetCond (some (str "")) = true from by decide,
      show (strip (str "")).isEmpty = true from by decide]
    simp only [getCnt, setCnt, if_pos, if_neg, List.filter]
    simp [h2v]
    decide

/-- C6 (witness): the amended reset rule applied at the concrete source
number 7 in both document families. -/
theorem olRenumber_reset_rule_witness :
    fixOrderedListPrefixes (joinLines [str "1. a", str "  1. b", str "7" ++ str ". c"]) =
        joinLines [str "1. a", str "  1. b", str "2. c"] ∧
      fixOrderedListPrefixes (joinLines [str "1. a", str "", str "7" ++ str ". c"]) =
        joinLines [str "1. a", str "", str "1. c"] :=
  olRenumber_reset_rule (str "7") (str "7") (by decide) (by decide) (by decide)
    (by decide) (by decide) (by decide)

/-- C10: an over-length line outside code blocks that is neither a heading
nor a dash/star list item, containing a markdown link `[text](http...)`
whose first occurrence starts before the length limit and is preceded by
non-empty text, is split immediately before the link: the rstripped text
before the link and the link together with everything after it become two
output lines, and the punctuation/conjunction break-point table is never
consulted. -/
theorem lineLength_link_split (mx : Nat) (st : Bool) (l : Line) (s : Nat)
    (hfence : isFenceLine l = false)
    (hcode : st = false)
    (hhead : (str "#").isPrefixOf (strip l) = false)
    (hlong : mx < l.length)
    (hdash : (str "- ").isPrefixOf (strip l) = false)
    (hstar : (str "* ").isPrefixOf (strip l) = false)
    (hsub : containsSub l (str "](http") = true)
    (hfind : findLinkStart l = some s)
    (hs : s < mx)
    (hbefore : (rstrip (l.take s)).isEmpty = false) :
    lineLenEmit mx st l = [rstrip (l.take s), l.drop s] := by
  subst hcode
  have c1 : ¬(isFenceLine l = true) := by simp [hfence]
  have c2 : ¬((false : Bool) = true) := by simp
  have c3 : ¬((str "#").isPrefixOf (strip l) = true) := by simp [hhead]
  have c4 : ¬(l.length ≤ mx) := by omega
  have c5 : ¬(((str "- ").isPrefixOf (strip l) || (str "* ").isPrefixOf (strip l)) = true) := by
    simp [hdash, hstar]
  have c6 : ¬((rstrip (l.take s)).isEmpty = true) := by simp [hbefore]
  unfold lineLenEmit
  rw [if_neg c1, if_neg c2, if_neg c3, if_neg c4, if_neg c5, if_pos hsub, hfind]
  show (if s < mx then _ else _) = _
  rw [if_pos hs, if_neg c6]

/-- C10 (witness): the link split at a concrete line with limit 10: the
link starting at position 4 is preceded by `see `, so the line becomes the
rstripped prefix and the link with its tail. -/
theorem lineLength_link_split_witness :
    lineLenEmit 10 false (str "see [x](http://a) done") =
      [str "see", str "[x](http://a) done"] := by
  have h := lineLength_link_split 10 false (str "see [x](http://a) done") 4
    (by decide) rfl (by decide) (by decide) (by decide) (by decide) (by decide)
    (by decide) (by decide) (by decide)
  exact h.trans (by decide)

/-- C8 (witness): the theorem applied at a concrete short line and a
concrete short document. -/
theorem lineLength_short_lines_unchanged_witness :
    lineLenEmit 120 false (str "hello") = [str "hello"] ∧
      llGo 120 false [str "a", str "b"] = [str "a", str "b"] :=
  ⟨lineLength_short_lines_unchanged.1 120 false (str "hello") (by decide),
   lineLength_short_lines_unchanged.2 120 false [str "a", str "b"] (by decide)⟩

/-! ### Helper lemmas and bridge theorems for totality (C9)

`pyGet`-based index translations are related to the structural embedding:
each checked pass returns `Except.ok` of the structural pass's result. -/

theorem pyGet_nat (ls : List Line) (i : Nat) (h : i < ls.length) :
    pyGet ls (i : Int) = Except.ok ls[i] := by
  have h0 : ¬((i : Int) < 0) := by omega
  simp [pyGet, h0, List.getElem?_eq_getElem h, List.get_eq_getElem]

theorem wsGoChk_ok (lines : List Line) : ∀ i,
    wsGoChk lines i = Except.ok ((lines.drop i).map rstrip) := by
  suffices hs : ∀ k i, lines.length - i ≤ k →
      wsGoChk lines i = Except.ok ((lines.drop i).map rstrip) from
    fun i => hs (lines.length - i) i (le_refl _)
  intro k
  induction k with
  | zero =>
    intro i hk
    rw [wsGoChk, dif_neg (by omega : ¬(i < lines.length))]
    rw [List.drop_eq_nil_of_le (by omega)]
    rfl
  | succ k ih =>
    intro i hk
    by_cases h : i < lines.length
    · rw [wsGoChk, dif_pos h]
      rw [pyGet_nat lines i h, ih (i + 1) (by omega)]
      rw [List.drop_eq_getElem_cons h]
      rfl
    · rw [wsGoChk, dif_neg h]
      rw [List.drop_eq_nil_of_le (by omega)]
      rfl

theorem pyGet_add_one (ls : List Line) (i : Nat) (h : i + 1 < ls.length) :
    pyGet ls ((i : Int) + 1) = Except.ok ls[i + 1] := by
  have e : ((i : Int) + 1) = ((i + 1 : Nat) : Int) := by push_cast; ring
  rw [e, pyGet_nat ls (i + 1) h]

theorem pyGet_sub_one (ls : List Line) (i : Nat) (h1 : 1 ≤ i) (h : i - 1 < ls.length) :
    pyGet ls ((i : Int) - 1) = Except.ok ls[i - 1] := by
  have e : ((i : Int) - 1) = ((i - 1 : Nat) : Int) := by omega
  rw [e, pyGet_nat ls (i - 1) h]

theorem pyGet_last (acc : List Line) (h : acc ≠ []) :
    pyGet acc (-1) = Except.ok (acc.getLast h) := by
  have hlen : 0 < acc.length := List.length_pos.mpr h
  have e1 : (if (-1 : Int) < 0 then -1 + (acc.length : Int) else -1) =
      ((acc.length - 1 : Nat) : Int) := by
    rw [if_pos (by omega)]
    omega
  rw [pyGet]
  rw [e1, if_neg (by omega), Int.toNat_natCast, List.get?_eq_get (by omega)]
  rw [List.getLast_eq_get acc h]

theorem liGoChk_ok (lines : List Line) (w : Nat) (hw : 0 < w) : ∀ i inCode,
    liGoChk lines w i inCode = Except.ok (liGo w inCode (lines.drop i)) := by
  suffices hs : ∀ k i inCode, lines.length - i ≤ k →
      liGoChk lines w i inCode = Except.ok (liGo w inCode (lines.drop i)) from
    fun i inCode => hs (lines.length - i) i inCode (le_refl _)
  intro k
  induction k with
  | zero =>
    intro i inCode hk
    rw [liGoChk, dif_neg (by omega : ¬(i < lines.length))]
    rw [List.drop_eq_nil_of_le (by omega)]
    rfl
  | succ k ih =>
    intro i inCode hk
    by_cases h : i < lines.length
    · rw [liGoChk, dif_pos h, pyGet_nat lines i h,
        List.drop_eq_getElem_cons h]
      show (if isFenceLine lines[i] then _ else _) = Except.ok (liGo w inCode _)
      by_cases hf : isFenceLine lines[i] = true
      · rw [if_pos hf, ih (i + 1) (!inCode) (by omega)]
        rw [liGo]
        rw [if_pos hf]
        rfl
      · rw [if_neg hf]
        by_cases hc : inCode = true
        · rw [if_pos hc, ih (i + 1) inCode (by omega)]
          rw [liGo, if_neg hf, if_pos hc]
          rfl
        · rw [if_neg hc]
          rw [liGo, if_neg hf, if_neg hc]
          by_cases hu : ulMatch lines[i] = true
          · rw [if_pos hu, if_neg (by omega : ¬(w = 0)), ih (i + 1) inCode (by omega)]
            rfl
          · rw [if_neg hu, ih (i + 1) inCode (by omega)]
            show Except.ok _ = _
            rw [liLine, if_neg hu]
    · rw [liGoChk, dif_neg h, List.drop_eq_nil_of_le (by omega)]
      rfl

theorem ok_bind {α β : Type} (a : α) (f : α → Except Unit β) :
    (Except.ok a >>= f : Except Unit β) = f a := rfl

theorem fenGoChk_ok (lines : List Line) : ∀ i,
    fenGoChk lines i = Except.ok (fixFencedLines (lines.drop i)) := by
  suffices hs : ∀ k i, lines.length - i ≤ k →
      fenGoChk lines i = Except.ok (fixFencedLines (lines.drop i)) from
    fun i => hs (lines.length - i) i (le_refl _)
  intro k
  induction k with
  | zero =>
    intro i hk
    rw [fenGoChk, dif_neg (by omega : ¬(i < lines.length))]
    rw [List.drop_eq_nil_of_le (by omega)]
    rfl
  | succ k ih =>
    intro i hk
    by_cases h : i < lines.length
    · rw [fenGoChk, dif_pos h, pyGet_nat lines i h, List.drop_eq_getElem_cons h]
      simp only [ok_bind]
      by_cases hb : isBareFence lines[i] = true
      · rw [if_pos hb]
        by_cases h1 : i + 1 < lines.length
        · rw [if_pos h1, pyGet_add_one lines i h1]
          simp only [ok_bind]
          rw [ih (i + 1) (by omega)]
          rw [fixFencedLines, if_pos hb, List.drop_eq_getElem_cons h1]
          rfl
        · rw [if_neg h1, ih (i + 1) (by omega)]
          rw [fixFencedLines, if_pos hb, List.drop_eq_nil_of_le (by omega)]
          rfl
      · rw [if_neg hb, ih (i + 1) (by omega)]
        rw [fixFencedLines, if_neg hb]
        rfl
    · rw [fenGoChk, dif_neg h, List.drop_eq_nil_of_le (by omega)]
      rfl

theorem llGoChk_ok (lines : List Line) (mx : Nat) : ∀ i inCode,
    llGoChk lines mx i inCode = Except.ok (llGo mx inCode (lines.drop i)) := by
  suffices hs : ∀ k i inCode, lines.length - i ≤ k →
      llGoChk lines mx i inCode = Except.ok (llGo mx inCode (lines.drop i)) from
    fun i inCode => hs (lines.length - i) i inCode (le_refl _)
  intro k
  induction k with
  | zero =>
    intro i inCode hk
    rw [llGoChk, dif_neg (by omega : ¬(i < lines.length))]
    rw [List.drop_eq_nil_of_le (by omega)]
    rfl
  | succ k ih =>
    intro i inCode hk
    by_cases h : i < lines.length
    · rw [llGoChk, dif_pos h, pyGet_nat lines i h, List.drop_eq_getElem_cons h]
      simp only [ok_bind]
      rw [ih (i + 1) _ (by omega)]
      rfl
    · rw [llGoChk, dif_neg h, List.drop_eq_nil_of_le (by omega)]
      rfl

theorem olScanChk_ok (lines : List Line) : ∀ j,
    olScanChk lines j = Except.ok (nextNonBlankIndent (lines.drop j)) := by
  suffices hs : ∀ k j, lines.length - j ≤ k →
      olScanChk lines j = Except.ok (nextNonBlankIndent (lines.drop j)) from
    fun j => hs (lines.length - j) j (le_refl _)
  intro k
  induction k with
  | zero =>
    intro j hk
    rw [olScanChk, dif_neg (by omega : ¬(j < lines.length))]
    rw [List.drop_eq_nil_of_le (by omega)]
    rfl
  | succ k ih =>
    intro j hk
    by_cases h : j < lines.length
    · rw [olScanChk, dif_pos h, pyGet_nat lines j h, List.drop_eq_getElem_cons h,
        nextNonBlankIndent]
      simp only [ok_bind]
      by_cases hb : (strip lines[j]).isEmpty = true
      · rw [if_pos hb, if_pos (by simpa using hb), ih (j + 1) (by omega)]
      · rw [if_neg hb, if_neg (by simpa using hb)]
        rfl
    · rw [olScanChk, dif_neg h, List.drop_eq_nil_of_le (by omega)]
      rfl

theorem pure_bind_exc {α β : Type} (a : α) (f : α → Except Unit β) :
    ((pure a : Except Unit α) >>= f) = f a := rfl

theorem olGoChk_ok (lines : List Line) : ∀ i cnt inCode,
    olGoChk lines i cnt inCode =
      Except.ok (olGo (if i = 0 then none else lines[i - 1]?) cnt inCode (lines.drop i)) := by
  suffices hs : ∀ k i cnt inCode, lines.length - i ≤ k →
      olGoChk lines i cnt inCode =
        Except.ok (olGo (if i = 0 then none else lines[i - 1]?) cnt inCode (lines.drop i)) from
    fun i cnt inCode => hs (lines.length - i) i cnt inCode (le_refl _)
  intro k
  induction k with
  | zero =>
    intro i cnt inCode hk
    rw [olGoChk, dif_neg (by omega : ¬(i < lines.length))]
    rw [List.drop_eq_nil_of_le (by omega)]
    rfl
  | succ k ih =>
    intro i cnt inCode hk
    by_cases h : i < lines.length
    · have hget : lines[i]? = some lines[i] := List.getElem?_eq_getElem h
      have hnext : ∀ cnt2 inC2,
          olGoChk lines (i + 1) cnt2 inC2 =
            Except.ok (olGo (some lines[i]) cnt2 inC2 (lines.drop (i + 1))) := by
        intro cnt2 inC2
        rw [ih (i + 1) cnt2 inC2 (by omega), if_neg (by omega)]
        simp only [Nat.add_sub_cancel]
        rw [hget]
      rw [olGoChk, dif_pos h, pyGet_nat lines i h]
      simp only [ok_bind]
      rw [List.drop_eq_getElem_cons h]
      simp only [olGo]
      by_cases hf : isFenceLine lines[i] = true
      · rw [if_pos hf, if_pos hf, hnext cnt (!inCode)]
        rfl
      · rw [if_neg hf, if_neg hf]
        by_cases hc : inCode = true
        · rw [if_pos hc, if_pos hc, hnext cnt inCode]
          rfl
        · rw [if_neg hc, if_neg hc]
          rcases hm : olMatch lines[i] with _ | ⟨ind, num, txt⟩
          · simp only [hm]
            by_cases hb : (strip lines[i]).isEmpty = true
            · rw [if_pos hb, if_pos hb, olScanChk_ok lines (i + 1)]
              simp only [ok_bind]
              rw [hnext _ inCode]
              rfl
            · rw [if_neg hb, if_neg hb, hnext cnt inCode]
              rfl
          · simp only [hm]
            by_cases hi : i = 0
            · rw [if_pos hi, pure_bind_exc, if_pos hi, hnext _ inCode]
              rfl
            · rw [if_neg hi, pyGet_sub_one lines i (by omega) (by omega)]
              simp only [ok_bind, pure_bind_exc]
              rw [if_neg hi]
              rw [List.getElem?_eq_getElem (show i - 1 < lines.length by omega)]
              rw [hnext _ inCode]
              rfl
    · rw [olGoChk, dif_neg h, List.drop_eq_nil_of_le (by omega)]
      rfl

theorem hsGoChk_ok (lines : List Line) (style : Line) : ∀ i inCode,
    hsGoChk lines style i inCode = Except.ok (hsGo style inCode (lines.drop i)) := by
  suffices hs : ∀ k i inCode, lines.length - i ≤ k →
      hsGoChk lines style i inCode = Except.ok (hsGo style inCode (lines.drop i)) from
    fun i inCode => hs (lines.length - i) i inCode (le_refl _)
  intro k
  induction k with
  | zero =>
    intro i inCode hk
    rw [hsGoChk, dif_neg (by omega : ¬(i < lines.length))]
    rw [List.drop_eq_nil_of_le (by omega)]
    rfl
  | succ k ih =>
    intro i inCode hk
    by_cases h : i < lines.length
    · rw [hsGoChk, dif_pos h, pyGet_nat lines i h]
      simp only [ok_bind]
      rw [List.drop_eq_getElem_cons h]
      by_cases h1 : i + 1 < lines.length
      · rw [List.drop_eq_getElem_cons h1]
        simp only [hsGo]
        by_cases hf : isFenceLine lines[i] = true
        · rw [if_pos hf, if_pos hf, ih (i + 1) (!inCode) (by omega),
            List.drop_eq_getElem_cons h1]
          rfl
        · rw [if_neg hf, if_neg hf]
          by_cases hc : inCode = true
          · rw [if_pos hc, if_pos hc, ih (i + 1) inCode (by omega),
              List.drop_eq_getElem_cons h1]
            rfl
          · rw [if_neg hc, if_neg hc, if_pos h1, pyGet_add_one lines i h1]
            simp only [ok_bind]
            by_cases hsx : setextUnder lines[i + 1] = true
            · rw [if_pos hsx, if_pos hsx]
              by_cases hst : style = str "atx"
              · rw [if_pos hst, if_pos hst, ih (i + 2) inCode (by omega)]
                rfl
              · rw [if_neg hst, if_neg hst, ih (i + 2) inCode (by omega)]
                rfl
            · rw [if_neg hsx, if_neg hsx, ih (i + 1) inCode (by omega),
                List.drop_eq_getElem_cons h1]
              rfl
      · have hd1 : lines.drop (i + 1) = [] := List.drop_eq_nil_of_le (by omega)
        rw [hd1]
        simp only [hsGo]
        by_cases hf : isFenceLine lines[i] = true
        · rw [if_pos hf, if_pos hf, ih (i + 1) (!inCode) (by omega), hd1]
          rfl
        · rw [if_neg hf, if_neg hf]
          by_cases hc : inCode = true
          · rw [if_pos hc, if_pos hc, ih (i + 1) inCode (by omega), hd1]
            rfl
          · rw [if_neg hc, if_neg hc, if_neg h1, ih (i + 1) inCode (by omega), hd1]
            show Except.ok (atxHandle style lines[i] ++ []) = _
            rw [List.append_nil]
    · rw [hsGoChk, dif_neg h, List.drop_eq_nil_of_le (by omega)]
      rfl

theorem blGoChk_ok (lines : List Line) : ∀ k i inCode acc, lines.length - i ≤ k →
    (i = 0 ↔ acc = []) →
    blGoChk lines i inCode acc =
      Except.ok (acc ++ blGo (decide (i = 0)) acc.getLast? inCode (lines.drop i)) := by
  intro k
  induction k with
  | zero =>
    intro i inCode acc hk _hiff
    rw [blGoChk, dif_neg (by omega : ¬(i < lines.length))]
    rw [List.drop_eq_nil_of_le (by omega)]
    show Except.ok acc = Except.ok (acc ++ [])
    rw [List.append_nil]
  | succ k ih =>
    intro i inCode acc hk hiff
    by_cases h : i < lines.length
    · have hinv1 : ∀ x : Line, i + 1 = 0 ↔ acc ++ [x] = [] := by
        intro x
        simp
      have hinv2 : ∀ x y : Line, i + 1 = 0 ↔ (acc ++ [x]) ++ [y] = [] := by
        intro x y
        simp
      have hinv3 : ∀ x y z : Line, i + 1 = 0 ↔ ((acc ++ [x]) ++ [y]) ++ [z] = [] := by
        intro x y z
        simp
      have hdec1 : decide (i + 1 = 0) = false := by simp
      rw [blGoChk, dif_pos h, pyGet_nat lines i h]
      simp only [ok_bind]
      rw [List.drop_eq_getElem_cons h]
      simp only [blGo]
      by_cases hf : isFenceLine lines[i] = true
      · rw [if_pos hf, if_pos hf]
        by_cases hc : inCode = true
        · -- end of a code block
          rw [if_pos hc, if_pos hc]
          by_cases h1 : i + 1 < lines.length
          · rw [if_pos h1, pyGet_add_one lines i h1]
            simp only [ok_bind]
            rw [List.drop_eq_getElem_cons h1]
            by_cases hcond : (!(strip lines[i + 1]).isEmpty &&
                !(str "#").isPrefixOf (strip lines[i + 1])) = true
            · rw [if_pos hcond, pure_bind_exc,
                ih (i + 1) false ((acc ++ [lines[i]]) ++ [[]]) (by omega) (hinv2 _ _),
                hdec1, List.drop_eq_getElem_cons h1, List.getLast?_concat]
              simp [List.append_assoc, hcond]
            · rw [if_neg hcond, pure_bind_exc,
                ih (i + 1) false (acc ++ [lines[i]]) (by omega) (hinv1 _),
                hdec1, List.drop_eq_getElem_cons h1, List.getLast?_concat]
              simp [List.append_assoc, hcond]
          · have hd1 : lines.drop (i + 1) = [] := List.drop_eq_nil_of_le (by omega)
            rw [hd1, if_neg h1, pure_bind_exc,
              ih (i + 1) false (acc ++ [lines[i]]) (by omega) (hinv1 _),
              hdec1, hd1, List.getLast?_concat]
            simp [List.append_assoc]
        · -- start of a code block
          rw [if_neg hc, if_neg hc]
          by_cases hi : i = 0
          · have hacc : acc = [] := hiff.mp hi
            subst hacc
            subst hi
            rw [if_neg (by simp : ¬(0 < 0 ∧ ([] : List Line) ≠ [])), pure_bind_exc,
              ih 1 true ([] ++ [lines[0]]) (by omega) (by simp)]
            simp [List.append_assoc]
          · have hacc : acc ≠ [] := fun he => hi (hiff.mpr he)
            have hdec0 : decide (i = 0) = false := by simp [hi]
            have hlast := List.getLast?_eq_getLast acc hacc
            rw [if_pos (⟨by omega, hacc⟩ : 0 < i ∧ acc ≠ []), pyGet_last acc hacc]
            simp only [ok_bind]
            rw [hdec0, hlast]
            by_cases hlo : (strip (acc.getLast hacc)).isEmpty = true
            · rw [if_neg (by simp [hlo]), pure_bind_exc,
                ih (i + 1) true (acc ++ [lines[i]]) (by omega) (hinv1 _),
                hdec1, List.getLast?_concat]
              simp [List.append_assoc, hlo]
            · rw [if_pos (by simp [hlo] : (!(strip (acc.getLast hacc)).isEmpty) = true),
                pure_bind_exc,
                ih (i + 1) true ((acc ++ [[]]) ++ [lines[i]]) (by omega) (by simp),
                hdec1, List.getLast?_concat]
              simp [List.append_assoc, hlo]
      · rw [if_neg hf, if_neg hf]
        by_cases hc : inCode = true
        · rw [if_pos hc, if_pos hc,
            ih (i + 1) true (acc ++ [lines[i]]) (by omega) (hinv1 _),
            hdec1, List.getLast?_concat]
          simp [List.append_assoc]
        · rw [if_neg hc, if_neg hc]
          by_cases hh : (str "#").isPrefixOf (strip lines[i]) = true
          · rw [if_pos hh, if_pos hh]
            -- the pre-blank before the heading
            by_cases hi : i = 0
            · have hacc : acc = [] := hiff.mp hi
              subst hacc
              subst hi
              rw [if_neg (by simp : ¬(0 < 0 ∧ ([] : List Line) ≠ [])), pure_bind_exc]
              by_cases h1 : 0 + 1 < lines.length
              · rw [if_pos h1, pyGet_add_one lines 0 h1]
                simp only [ok_bind]
                rw [List.drop_eq_getElem_cons h1]
                by_cases hpost : (!(strip lines[0 + 1]).isEmpty) = true
                · rw [if_pos hpost, pure_bind_exc,
                    ih 1 false (([] ++ [lines[0]]) ++ [[]]) (by omega) (by simp),
                    List.drop_eq_getElem_cons h1, List.getLast?_concat]
                  simp [List.append_assoc, hpost]
                · rw [if_neg hpost, pure_bind_exc,
                    ih 1 false ([] ++ [lines[0]]) (by omega) (by simp),
                    List.drop_eq_getElem_cons h1]
                  simp [List.append_assoc, hpost]
              · have hd1 : lines.drop (0 + 1) = [] := List.drop_eq_nil_of_le (by omega)
                rw [hd1, if_neg h1, pure_bind_exc,
                  ih 1 false ([] ++ [lines[0]]) (by omega) (by simp), hd1]
                simp [List.append_assoc]
            · have hacc : acc ≠ [] := fun he => hi (hiff.mpr he)
              have hdec0 : decide (i = 0) = false := by simp [hi]
              have hlast := List.getLast?_eq_getLast acc hacc
              rw [if_pos (⟨by omega, hacc⟩ : 0 < i ∧ acc ≠ []), pyGet_last acc hacc]
              simp only [ok_bind]
              rw [hdec0, hlast]
              by_cases hlo : (strip (acc.getLast hacc)).isEmpty = true
              · rw [if_neg (by simp [hlo]), pure_bind_exc]
                by_cases h1 : i + 1 < lines.length
                · rw [if_pos h1, pyGet_add_one lines i h1]
                  simp only [ok_bind]
                  rw [List.drop_eq_getElem_cons h1]
                  by_cases hpost : (!(strip lines[i + 1]).isEmpty) = true
                  · rw [if_pos hpost, pure_bind_exc,
                      ih (i + 1) false ((acc ++ [lines[i]]) ++ [[]]) (by omega) (hinv2 _ _),
                      hdec1, List.drop_eq_getElem_cons h1, List.getLast?_concat]
                    simp [List.append_assoc, hlo, hpost]
                  · rw [if_neg hpost, pure_bind_exc,
                      ih (i + 1) false (acc ++ [lines[i]]) (by omega) (hinv1 _),
                      hdec1, List.drop_eq_getElem_cons h1, List.getLast?_concat]
                    simp [List.append_assoc, hlo, hpost]
                · have hd1 : lines.drop (i + 1) = [] := List.drop_eq_nil_of_le (by omega)
                  rw [hd1, if_neg h1, pure_bind_exc,
                    ih (i + 1) false (acc ++ [lines[i]]) (by omega) (hinv1 _),
                    hdec1, hd1, List.getLast?_concat]
                  simp [List.append_assoc, hlo]
              · rw [if_pos (by simp [hlo] : (!(strip (acc.getLast hacc)).isEmpty) = true),
                  pure_bind_exc]
                by_cases h1 : i + 1 < lines.length
                · rw [if_pos h1, pyGet_add_one lines i h1]
                  simp only [ok_bind]
                  rw [List.drop_eq_getElem_cons h1]
                  by_cases hpost : (!(strip lines[i + 1]).isEmpty) = true
                  · rw [if_pos hpost, pure_bind_exc,
                      ih (i + 1) false (((acc ++ [[]]) ++ [lines[i]]) ++ [[]]) (by omega)
                        (by simp),
                      hdec1, List.drop_eq_getElem_cons h1, List.getLast?_concat]
                    simp [List.append_assoc, hlo, hpost]
                  · rw [if_neg hpost, pure_bind_exc,
                      ih (i + 1) false ((acc ++ [[]]) ++ [lines[i]]) (by omega) (by simp),
                      hdec1, List.drop_eq_getElem_cons h1, List.getLast?_concat]
                    simp [List.append_assoc, hlo, hpost]
                · have hd1 : lines.drop (i + 1) = [] := List.drop_eq_nil_of_le (by omega)
                  rw [hd1, if_neg h1, pure_bind_exc,
                    ih (i + 1) false ((acc ++ [[]]) ++ [lines[i]]) (by omega) (by simp),
                    hdec1, hd1, List.getLast?_concat]
                  simp [List.append_assoc, hlo]
          · rw [if_neg hh, if_neg hh]
            by_cases hli : isListLine lines[i] = true
            · rw [if_pos hli, if_pos hli]
              by_cases hi : i = 0
              · have hacc : acc = [] := hiff.mp hi
                subst hacc
                subst hi
                rw [if_neg (by simp : ¬(0 < 0 ∧ ([] : List Line) ≠ [])), pure_bind_exc,
                  ih 1 false ([] ++ [lines[0]]) (by omega) (by simp)]
                simp [List.append_assoc]
              · have hacc : acc ≠ [] := fun he => hi (hiff.mpr he)
                have hdec0 : decide (i = 0) = false := by simp [hi]
                have hlast := List.getLast?_eq_getLast acc hacc
                rw [if_pos (⟨by omega, hacc⟩ : 0 < i ∧ acc ≠ []), pyGet_last acc hacc]
                simp only [ok_bind]
                rw [hdec0, hlast]
                by_cases hpl : (!(strip (acc.getLast hacc)).isEmpty &&
                    !isListLine (strip (acc.getLast hacc))) = true
                · rw [if_pos hpl, pure_bind_exc,
                    ih (i + 1) false ((acc ++ [[]]) ++ [lines[i]]) (by omega) (by simp),
                    hdec1, List.getLast?_concat]
                  simp [List.append_assoc, hpl]
                · rw [if_neg hpl, pure_bind_exc,
                    ih (i + 1) false (acc ++ [lines[i]]) (by omega) (hinv1 _),
                    hdec1, List.getLast?_concat]
                  simp [List.append_assoc, hpl]
            · rw [if_neg hli, if_neg hli,
                ih (i + 1) false (acc ++ [lines[i]]) (by omega) (hinv1 _),
                hdec1, List.getLast?_concat]
              simp [List.append_assoc]
    · rw [blGoChk, dif_neg h, List.drop_eq_nil_of_le (by omega)]
      show Except.ok acc = Except.ok (acc ++ [])
      rw [List.append_nil]

/-- C9: every transform is total over arbitrary text.  The checked,
index-based translations (which follow the Python while-loops literally and
model IndexError / ZeroDivisionError as `Except.error`) never error and
agree with the structural embedding, for every input text, every positive
list-indent width, every line length and every heading style: the guards
around each lookahead/lookbehind subscript are sufficient, and malformed
documents (for example an odd number of fence delimiters) degrade to
pass-through rather than failing. -/
theorem transforms_total (c : List Char) (width maxL : Nat) (style : Line)
    (hw : 0 < width) :
    fixTrailingWhitespaceChk c = Except.ok (fixTrailingWhitespace c) ∧
    fixFencedCodeBlocksChk c = Except.ok (fixFencedCodeBlocks c) ∧
    fixOrderedListPrefixesChk c = Except.ok (fixOrderedListPrefixes c) ∧
    fixListIndentConsistencyChk c width = Except.ok (fixListIndentConsistency c width) ∧
    fixHeadingStyleChk c style = Except.ok (fixHeadingStyle c style) ∧
    fixBlankLinesChk c = Except.ok (fixBlankLines c) ∧
    fixLineLengthChk c maxL = Except.ok (fixLineLength c maxL) := by
  refine ⟨?_, ?_, ?_, ?_, ?_, ?_, ?_⟩
  · rw [fixTrailingWhitespaceChk, wsGoChk_ok (splitLines c) 0]
    rfl
  · rw [fixFencedCodeBlocksChk, fenGoChk_ok (splitLines c) 0]
    rfl
  · rw [fixOrderedListPrefixesChk, olGoChk_ok (splitLines c) 0 [] false]
    rfl
  · rw [fixListIndentConsistencyChk, liGoChk_ok (splitLines c) width hw 0 false]
    rfl
  · rw [fixHeadingStyleChk, hsGoChk_ok (splitLines c) style 0 false]
    rfl
  · rw [fixBlankLinesChk,
      blGoChk_ok (splitLines c) (splitLines c).length 0 false [] (by omega) (by simp)]
    rfl
  · rw [fixLineLengthChk, llGoChk_ok (splitLines c) maxL 0 false]
    rfl

/-- C9 (witness): the totality theorem applied at a concrete two-line
document (with a trailing-whitespace line and an unterminated fence) and
the default configuration values. -/
theorem transforms_total_witness :
    fixTrailingWhitespaceChk (str "x \n```") =
        Except.ok (fixTrailingWhitespace (str "x \n```")) ∧
      fixFencedCodeBlocksChk (str "x \n```") =
        Except.ok (fixFencedCodeBlocks (str "x \n```")) ∧
      fixOrderedListPrefixesChk (str "x \n```") =
        Except.ok (fixOrderedListPrefixes (str "x \n```")) ∧
      fixListIndentConsistencyChk (str "x \n```") 2 =
        Except.ok (fixListIndentConsistency (str "x \n```") 2) ∧
      fixHeadingStyleChk (str "x \n```") (str "atx") =
        Except.ok (fixHeadingStyle (str "x \n```") (str "atx")) ∧
      fixBlankLinesChk (str "x \n```") = Except.ok (fixBlankLines (str "x \n```")) ∧
      fixLineLengthChk (str "x \n```") 120 =
        Except.ok (fixLineLength (str "x \n```") 120) :=
  transforms_total (str "x \n```") 2 120 (str "atx") (by decide)
